import Mathlib

/-!
OpenPF2 core: command queue, character queue and attribute clamping

A shallow embedding of

* `Source/OpenPF2Core/Private/Commands/PF2CommandQueueComponent.cpp`
* `Source/OpenPF2Core/Private/Commands/PF2CharacterCommand.cpp`
* `Source/OpenPF2Core/Private/PF2CharacterQueueComponent.cpp`
* `Source/ActionRPG/Private/Abilities/RPGAttributeSet.cpp`

Conventions of the embedding:

* an actor pointer is an `Option Nat`: `none` is `nullptr`, `some n` is the actor with identity `n`;
* a `TArray` is a `List`, index 0 first; the engine container operations used by the sources are
  the definitions of the `TArray` namespace;
* a failed `check`/`checkf` makes the operation return `none`;
* delegate broadcasts are appended, in order, to the `Events` field of the component;
* `UE_LOG` output is not part of the model;
* `float` attribute values are rationals; the definitions named after the source functions
  compute exactly, their `Rounded` variants pass the result of every float operation through a
  rounding function `fl`, for which `FMath.RoundFloat32` is the binary32 rounding.
-/

namespace OpenPF2

/-- An actor pointer (`AInfo*`, `AActor*`): `none` is `nullptr`. -/
abbrev ActorPtr := Option Nat

namespace TArray

/-- Engine `TArray::Num`. -/
def Num {α : Type} (xs : List α) : Nat := xs.length

/-- Engine `TArray::Add`: the new element goes to the end. -/
def Add {α : Type} (xs : List α) (x : α) : List α := xs ++ [x]

/-- Engine `TArray::Contains`. -/
def Contains {α : Type} [DecidableEq α] (xs : List α) (x : α) : Bool := decide (x ∈ xs)

/-- Engine `TArray::Pop`: the element returned is the LAST one (only called on non-empty arrays). -/
def PopValue (xs : List ActorPtr) : ActorPtr := xs.getLastD none

/-- Engine `TArray::Pop`: the array left behind has lost its last element. -/
def PopRest {α : Type} (xs : List α) : List α := xs.dropLast

/-- Engine `TArray::Remove`: every element equal to `x` is removed, the others keep their order. -/
def Remove {α : Type} [DecidableEq α] (xs : List α) (x : α) : List α :=
  xs.filter (fun y => decide (y ≠ x))

/-- Engine `TArray::Remove`: the number of elements removed. -/
def RemoveCount {α : Type} [DecidableEq α] (xs : List α) (x : α) : Nat := xs.count x

/-- Engine `TArray::Find`: the index of the first element equal to `x`, `INDEX_NONE` (-1) if
there is none. -/
def Find {α : Type} [DecidableEq α] (xs : List α) (x : α) : Int :=
  if x ∈ xs then (xs.indexOf x : Int) else -1

/-- Engine `TArray::AddUnique`: adds the element only when it is not there yet. -/
def AddUnique {α : Type} [DecidableEq α] (xs : List α) (x : α) : List α :=
  if x ∈ xs then xs else xs ++ [x]

/-- Engine `TArray::Empty`. -/
def Empty {α : Type} (_xs : List α) : List α := []

end TArray

/-! ## Command queue (`PF2CommandQueueComponent.cpp`, `PF2CharacterCommand.cpp`) -/

/-- Result of an attempt at executing a command immediately. -/
inductive EPF2CommandExecuteImmediatelyResult
  | None
  | Activated
  | Blocked
  deriving DecidableEq, Repr

/-- The broadcasts of the command queue's delegates. -/
inductive CommandEvent
  | CommandAdded (c : ActorPtr)
  | CommandRemoved (c : ActorPtr)
  | CommandsChanged (cs : List Nat)
  deriving DecidableEq, Repr

/-- State of a `UPF2CommandQueueComponent`: the replicated `Queue`, the broadcasts made so far and
the commands whose immediate execution was attempted so far. -/
structure UPF2CommandQueueComponent where
  Queue : List ActorPtr
  Events : List CommandEvent
  Attempts : List Nat
  deriving DecidableEq, Repr

/-- `APF2CharacterCommand::AttemptExecuteImmediately`; `tryActivate` is the answer of the ability
system's `TryActivateAbility` for the command's ability handle. -/
def APF2CharacterCommand.AttemptExecuteImmediately (tryActivate : Bool) :
    EPF2CommandExecuteImmediatelyResult :=
  if tryActivate then .Activated else .Blocked

namespace UPF2CommandQueueComponent

/-- A freshly constructed component. -/
def empty : UPF2CommandQueueComponent := ⟨[], [], []⟩

/-- `UPF2CommandQueueComponent::Count`. -/
def Count (q : UPF2CommandQueueComponent) : Nat := TArray.Num q.Queue

/-- `Native_OnCommandsChanged`: broadcasts the non-null entries of the queue. -/
def Native_OnCommandsChanged (q : UPF2CommandQueueComponent) : UPF2CommandQueueComponent :=
  { q with Events := q.Events ++ [.CommandsChanged (q.Queue.filterMap id)] }

/-- `Native_OnCommandAdded`. -/
def Native_OnCommandAdded (q : UPF2CommandQueueComponent) (c : ActorPtr) :
    UPF2CommandQueueComponent :=
  { q with Events := q.Events ++ [.CommandAdded c] }

/-- `Native_OnCommandRemoved`. -/
def Native_OnCommandRemoved (q : UPF2CommandQueueComponent) (c : ActorPtr) :
    UPF2CommandQueueComponent :=
  { q with Events := q.Events ++ [.CommandRemoved c] }

/-- `UPF2CommandQueueComponent::Enqueue`; `none` when the `checkf` fails. -/
def Enqueue (q : UPF2CommandQueueComponent) (c : Nat) : Option UPF2CommandQueueComponent :=
  if TArray.Contains q.Queue (some c) then none
  else
    let q1 := { q with Queue := TArray.Add q.Queue (some c) }
    some (Native_OnCommandsChanged (Native_OnCommandAdded q1 (some c)))

/-- `UPF2CommandQueueComponent::PeekNext`: the value left in the out-parameter (initially null)
and the component afterwards. -/
def PeekNext (q : UPF2CommandQueueComponent) : ActorPtr × UPF2CommandQueueComponent :=
  if q.Count ≠ 0 then (q.Queue.getD 0 none, q) else (none, q)

/-- `UPF2CommandQueueComponent::PopNext`: the value left in the out-parameter and the component
afterwards. -/
def PopNext (q : UPF2CommandQueueComponent) : ActorPtr × UPF2CommandQueueComponent :=
  if q.Count ≠ 0 then
    let next := TArray.PopValue q.Queue
    let q1 := { q with Queue := TArray.PopRest q.Queue }
    (next, Native_OnCommandsChanged (Native_OnCommandRemoved q1 next))
  else (none, q)

/-- `UPF2CommandQueueComponent::DropNext`. -/
def DropNext (q : UPF2CommandQueueComponent) : UPF2CommandQueueComponent :=
  if q.Count ≠ 0 then
    let next := TArray.PopValue q.Queue
    let q1 := { q with Queue := TArray.PopRest q.Queue }
    Native_OnCommandsChanged (Native_OnCommandRemoved q1 next)
  else q

/-- `UPF2CommandQueueComponent::PopAndExecuteNext`; `attempt c` is what
`AttemptExecuteImmediately` of command `c` returns. -/
def PopAndExecuteNext (attempt : Nat → EPF2CommandExecuteImmediatelyResult)
    (q : UPF2CommandQueueComponent) :
    EPF2CommandExecuteImmediatelyResult × UPF2CommandQueueComponent :=
  let peeked := PeekNext q
  match peeked.1 with
  | none => (.None, peeked.2)
  | some c =>
    let q1 := { peeked.2 with Attempts := peeked.2.Attempts ++ [c] }
    let result := attempt c
    if result = .Blocked then (result, q1) else (result, DropNext q1)

/-- `UPF2CommandQueueComponent::Remove`. -/
def Remove (q : UPF2CommandQueueComponent) (c : Nat) : Bool × UPF2CommandQueueComponent :=
  let countOfRemoved := TArray.RemoveCount q.Queue (some c)
  let q1 := { q with Queue := TArray.Remove q.Queue (some c) }
  let bWasCommandRemoved := decide (countOfRemoved > 0)
  if bWasCommandRemoved then
    (bWasCommandRemoved, Native_OnCommandsChanged (Native_OnCommandRemoved q1 (some c)))
  else (bWasCommandRemoved, q1)

/-- `UPF2CommandQueueComponent::Clear`. -/
def Clear (q : UPF2CommandQueueComponent) : UPF2CommandQueueComponent :=
  Native_OnCommandsChanged { q with Queue := TArray.Empty q.Queue }

end UPF2CommandQueueComponent

/-- One call on a command queue; `PopAndExecuteNext` carries what the ability system answers at
the time of the call. -/
inductive CommandCall
  | Enqueue (c : Nat)
  | PopNext
  | DropNext
  | PopAndExecuteNext (attempt : Nat → EPF2CommandExecuteImmediatelyResult)
  | Remove (c : Nat)
  | Clear

/-- The component after one call; `none` when an assertion of the call fails. -/
def CommandCall.apply (q : UPF2CommandQueueComponent) : CommandCall → Option UPF2CommandQueueComponent
  | .Enqueue c => q.Enqueue c
  | .PopNext => some q.PopNext.2
  | .DropNext => some q.DropNext
  | .PopAndExecuteNext attempt => some (q.PopAndExecuteNext attempt).2
  | .Remove c => some (q.Remove c).2
  | .Clear => some q.Clear

/-- The component after a sequence of calls, all of which have to succeed. -/
def CommandCall.run (q : UPF2CommandQueueComponent) : List CommandCall → Option UPF2CommandQueueComponent
  | [] => some q
  | call :: rest => (call.apply q).bind (fun q1 => CommandCall.run q1 rest)

/-- Enqueues the commands of `cs` one after the other. -/
def enqueueAll (q : UPF2CommandQueueComponent) (cs : List Nat) : Option UPF2CommandQueueComponent :=
  CommandCall.run q (cs.map CommandCall.Enqueue)

/-! ## Character queue (`PF2CharacterQueueComponent.cpp`) -/

/-- The broadcasts of the character queue's delegates. -/
inductive CharacterEvent
  | CharacterAdded (c : ActorPtr)
  | CharacterRemoved (c : ActorPtr)
  | CharactersChanged (cs : List Nat)
  | ActiveCharacterChanged (c : ActorPtr)
  deriving DecidableEq, Repr

/-- State of a `UPF2CharacterQueueComponent`: the replicated `Queue`, the replicated `uint8`
cursor `ActiveCharacterIndex`, and the broadcasts made so far. -/
structure UPF2CharacterQueueComponent where
  Queue : List ActorPtr
  ActiveCharacterIndex : Nat
  Events : List CharacterEvent
  deriving DecidableEq, Repr

/-- Conversion of an `int32` to `uint8`. -/
def toUInt8 (i : Int) : Nat := (i % 256).toNat

namespace UPF2CharacterQueueComponent

/-- The constructor: `ActiveCharacterIndex(0)`, nothing queued. -/
def initial : UPF2CharacterQueueComponent := ⟨[], 0, []⟩

/-- `UPF2CharacterQueueComponent::Count`. -/
def Count (q : UPF2CharacterQueueComponent) : Nat := TArray.Num q.Queue

/-- Modelled from the spec: `GetMaxIndex` is declared in the component's header, which is not
among the sources; the maximum index is `Count - 1`, returned as a `uint8`. -/
def GetMaxIndex (q : UPF2CharacterQueueComponent) : Nat := (q.Count - 1) % 256

/-- `UPF2CharacterQueueComponent::GetActiveCharacter`; `none` when one of its two `check`s fails,
`some none` when there is no active character. -/
def GetActiveCharacter (q : UPF2CharacterQueueComponent) : Option ActorPtr :=
  if q.Count = 0 then some none
  else if q.ActiveCharacterIndex < q.Count then
    match q.Queue.getD q.ActiveCharacterIndex none with
    | none => none
    | some c => some (some c)
  else none

/-- `Native_OnCharactersChanged`: broadcasts the non-null entries of the queue. -/
def Native_OnCharactersChanged (q : UPF2CharacterQueueComponent) : UPF2CharacterQueueComponent :=
  { q with Events := q.Events ++ [.CharactersChanged (q.Queue.filterMap id)] }

/-- `Native_OnCharacterAdded`. -/
def Native_OnCharacterAdded (q : UPF2CharacterQueueComponent) (c : ActorPtr) :
    UPF2CharacterQueueComponent :=
  { q with Events := q.Events ++ [.CharacterAdded c] }

/-- `Native_OnActiveCharacterChanged`. -/
def Native_OnActiveCharacterChanged (q : UPF2CharacterQueueComponent) (c : ActorPtr) :
    UPF2CharacterQueueComponent :=
  { q with Events := q.Events ++ [.ActiveCharacterChanged c] }

/-- `Native_OnCharacterRemoved`; `none` when the `check` of `GetActiveCharacter` fails. -/
def Native_OnCharacterRemoved (q : UPF2CharacterQueueComponent) (c : ActorPtr)
    (RemovedIndex : Nat) : Option UPF2CharacterQueueComponent :=
  if q.ActiveCharacterIndex ≥ RemovedIndex then
    let q1 :=
      if q.ActiveCharacterIndex ≠ 0 then
        { q with ActiveCharacterIndex := q.ActiveCharacterIndex - 1 }
      else q
    match q1.GetActiveCharacter with
    | none => none
    | some active =>
      let q2 := Native_OnActiveCharacterChanged q1 active
      some { q2 with Events := q2.Events ++ [.CharacterRemoved c] }
  else some { q with Events := q.Events ++ [.CharacterRemoved c] }

/-- `UPF2CharacterQueueComponent::Add`; `none` when the capacity `check` fails. -/
def Add (q : UPF2CharacterQueueComponent) (c : Nat) : Option UPF2CharacterQueueComponent :=
  if q.Count ≤ 255 + 1 then
    let q1 := { q with Queue := TArray.AddUnique q.Queue (some c) }
    some (Native_OnCharactersChanged (Native_OnCharacterAdded q1 (some c)))
  else none

/-- `UPF2CharacterQueueComponent::Remove`; `none` when a `check` fails. -/
def Remove (q : UPF2CharacterQueueComponent) (c : Nat) :
    Option (Bool × UPF2CharacterQueueComponent) :=
  let RemovedIndex := TArray.Find q.Queue (some c)
  let CountOfRemoved := TArray.RemoveCount q.Queue (some c)
  let q1 := { q with Queue := TArray.Remove q.Queue (some c) }
  let bWasCharacterRemoved := decide (CountOfRemoved > 0)
  if bWasCharacterRemoved then
    if RemovedIndex ≠ -1 then
      (Native_OnCharacterRemoved q1 (some c) (toUInt8 RemovedIndex)).map
        (fun q2 => (bWasCharacterRemoved, Native_OnCharactersChanged q2))
    else none
  else some (bWasCharacterRemoved, q1)

/-- The loop of `Clear` over the old queue, from index `CharacterIndex` on. -/
def ClearLoop (q : UPF2CharacterQueueComponent) :
    List ActorPtr → Nat → Option UPF2CharacterQueueComponent
  | [], _ => some q
  | none :: _, _ => none
  | some c :: rest, CharacterIndex =>
    (Native_OnCharacterRemoved q (some c) (CharacterIndex % 256)).bind
      (fun q1 => ClearLoop q1 rest (CharacterIndex + 1))

/-- `UPF2CharacterQueueComponent::Clear`; `none` when a `check` fails. -/
def Clear (q : UPF2CharacterQueueComponent) : Option UPF2CharacterQueueComponent :=
  let OldQueue := q.Queue
  let q1 := { q with Queue := TArray.Empty q.Queue }
  (ClearLoop q1 OldQueue 0).map Native_OnCharactersChanged

/-- `UPF2CharacterQueueComponent::SetActiveCharacterIndex`; `none` when a `check` fails. -/
def SetActiveCharacterIndex (q : UPF2CharacterQueueComponent) (NewActiveCharacterIndex : Nat) :
    Option UPF2CharacterQueueComponent :=
  match q.GetActiveCharacter with
  | none => none
  | some OldCharacter =>
    if NewActiveCharacterIndex < q.Count then
      let q1 := { q with ActiveCharacterIndex := NewActiveCharacterIndex }
      match q1.GetActiveCharacter with
      | none => none
      | some NewCharacter =>
        if OldCharacter ≠ NewCharacter then some (Native_OnActiveCharacterChanged q1 NewCharacter)
        else some q1
    else none

/-- `UPF2CharacterQueueComponent::PreviousCharacter`; `none` when a `check` fails. -/
def PreviousCharacter (q : UPF2CharacterQueueComponent) :
    Option (ActorPtr × UPF2CharacterQueueComponent) :=
  let moved :=
    if q.Count ≠ 0 then
      let NewCharacterIndex :=
        if q.ActiveCharacterIndex = 0 then q.GetMaxIndex
        else (q.ActiveCharacterIndex - 1) % 256
      q.SetActiveCharacterIndex NewCharacterIndex
    else some q
  moved.bind (fun q1 => q1.GetActiveCharacter.map (fun active => (active, q1)))

/-- `UPF2CharacterQueueComponent::NextCharacter`; `none` when a `check` fails. -/
def NextCharacter (q : UPF2CharacterQueueComponent) :
    Option (ActorPtr × UPF2CharacterQueueComponent) :=
  let moved :=
    if q.Count ≠ 0 then
      let NewCharacterIndex :=
        if q.ActiveCharacterIndex = q.GetMaxIndex then 0
        else (q.ActiveCharacterIndex + 1) % 256
      q.SetActiveCharacterIndex NewCharacterIndex
    else some q
  moved.bind (fun q1 => q1.GetActiveCharacter.map (fun active => (active, q1)))

end UPF2CharacterQueueComponent

/-- One call on a character queue. -/
inductive RosterCall
  | Add (c : Nat)
  | Remove (c : Nat)
  | Clear
  | NextCharacter
  | PreviousCharacter
  deriving DecidableEq, Repr

/-- The component after one call; `none` when a `check` of the call fails. -/
def RosterCall.apply (q : UPF2CharacterQueueComponent) :
    RosterCall → Option UPF2CharacterQueueComponent
  | .Add c => q.Add c
  | .Remove c => (q.Remove c).map Prod.snd
  | .Clear => q.Clear
  | .NextCharacter => q.NextCharacter.map Prod.snd
  | .PreviousCharacter => q.PreviousCharacter.map Prod.snd

/-- The component after a sequence of calls, all of which have to succeed. -/
def RosterCall.run (q : UPF2CharacterQueueComponent) :
    List RosterCall → Option UPF2CharacterQueueComponent
  | [] => some q
  | call :: rest => (call.apply q).bind (fun q1 => RosterCall.run q1 rest)


/-! ## Attribute set (`RPGAttributeSet.cpp`) -/

/-- Engine `EGameplayModOp::Type`. -/
inductive EGameplayModOp
  | Additive
  | Multiplicitive
  | Division
  | Override
  deriving DecidableEq, Repr

/-- The attributes that `PreAttributeChange` and `PostGameplayEffectExecute` tell apart. -/
inductive FGameplayAttribute
  | Damage
  | HitPoints
  | MaxHitPoints
  | Speed
  | Other
  deriving DecidableEq, Repr

/-- The calls made on the target character. -/
inductive AttributeEvent
  | HandleDamage (DamageAmount : ℚ)
  | HandleHitPointsChanged (DeltaValue : ℚ)
  | HandleMoveSpeedChanged (DeltaValue : ℚ)
  deriving DecidableEq, Repr

/-- State of a `URPGAttributeSet`, as far as hit points are concerned: the current values of the
attributes `HitPoints`, `MaxHitPoints` and of the transient `Damage`, and the calls made on the
target character so far. -/
structure URPGAttributeSet where
  HitPoints : ℚ
  MaxHitPoints : ℚ
  Damage : ℚ
  Events : List AttributeEvent
  deriving DecidableEq, Repr

/-- What `PostGameplayEffectExecute` reads from its `FGameplayEffectModCallbackData`:
the attribute evaluated, the modifier operation and magnitude, and whether the target's avatar
actor resolves to a character (`TargetCharacter` non-null). -/
structure FGameplayEffectModCallbackData where
  Attribute : FGameplayAttribute
  ModifierOp : EGameplayModOp
  Magnitude : ℚ
  TargetCharacter : Bool
  deriving DecidableEq, Repr

namespace FMath

/-- Engine constant `SMALL_NUMBER` (1.e-8f), the default tolerance of `IsNearlyEqual`. -/
def SMALL_NUMBER : ℚ := 1 / 100000000

/-- Engine `FMath::IsNearlyEqual(A, B)`: `Abs(A - B) <= SMALL_NUMBER`. -/
def IsNearlyEqual (A B : ℚ) : Bool := decide (|A - B| ≤ SMALL_NUMBER)

/-- Engine `FMath::Clamp(X, Min, Max)`: `X < Min ? Min : X < Max ? X : Max`. -/
def Clamp (X Min Max : ℚ) : ℚ := if X < Min then Min else if X < Max then X else Max

end FMath

namespace URPGAttributeSet

/-- `URPGAttributeSet::AdjustAttributeForMaxChange`, as a function from the current value of the
affected attribute to its value afterwards. `AbilityComp` tells whether
`GetOwningAbilitySystemComponent()` is non-null; `ApplyModToAttributeUnsafe` with
`EGameplayModOp::Additive` adds `NewDelta` to the affected attribute. -/
def AdjustAttributeForMaxChange (AbilityComp : Bool) (CurrentValue CurrentMaxValue NewMaxValue : ℚ) :
    ℚ :=
  if (!FMath.IsNearlyEqual CurrentMaxValue NewMaxValue) && AbilityComp then
    let NewDelta :=
      if CurrentMaxValue > 0 then CurrentValue * NewMaxValue / CurrentMaxValue - CurrentValue
      else NewMaxValue
    CurrentValue + NewDelta
  else CurrentValue

/-- `URPGAttributeSet::PreAttributeChange`. -/
def PreAttributeChange (s : URPGAttributeSet) (AbilityComp : Bool) (Attribute : FGameplayAttribute)
    (NewValue : ℚ) : URPGAttributeSet :=
  if Attribute = .MaxHitPoints then
    { s with HitPoints := AdjustAttributeForMaxChange AbilityComp s.HitPoints s.MaxHitPoints NewValue }
  else s

/-- `URPGAttributeSet::PostGameplayEffectExecute`. -/
def PostGameplayEffectExecute (s : URPGAttributeSet) (Data : FGameplayEffectModCallbackData) :
    URPGAttributeSet :=
  let DeltaValue : ℚ := if Data.ModifierOp = .Additive then Data.Magnitude else 0
  if Data.Attribute = .Damage then
    let LocalDamageDone := s.Damage
    let s1 := { s with Damage := 0 }
    if LocalDamageDone > 0 then
      let OldHitPoints := s1.HitPoints
      let s2 := { s1 with HitPoints := FMath.Clamp (OldHitPoints - LocalDamageDone) 0 s1.MaxHitPoints }
      if Data.TargetCharacter then
        { s2 with Events := s2.Events ++
            [.HandleDamage LocalDamageDone, .HandleHitPointsChanged (-LocalDamageDone)] }
      else s2
    else s1
  else if Data.Attribute = .HitPoints then
    let s1 := { s with HitPoints := FMath.Clamp s.HitPoints 0 s.MaxHitPoints }
    if Data.TargetCharacter then
      { s1 with Events := s1.Events ++ [.HandleHitPointsChanged DeltaValue] }
    else s1
  else if Data.Attribute = .Speed then
    if Data.TargetCharacter then
      { s with Events := s.Events ++ [.HandleMoveSpeedChanged DeltaValue] }
    else s
  else s

/-- A change of the maximum hit points to `NewMaxValue`: the ability system calls
`PreAttributeChange` with the new value and then stores it in `MaxHitPoints`. -/
def SetMax (s : URPGAttributeSet) (AbilityComp : Bool) (NewMaxValue : ℚ) : URPGAttributeSet :=
  { PreAttributeChange s AbilityComp .MaxHitPoints NewMaxValue with MaxHitPoints := NewMaxValue }

/-- The hit-point invariant `0 <= hitPoints <= maxHitPoints`. -/
def Clamped (s : URPGAttributeSet) : Prop := 0 ≤ s.HitPoints ∧ s.HitPoints ≤ s.MaxHitPoints

end URPGAttributeSet

/-! ## Attribute set with rounded float arithmetic -/

namespace FMath

/-- Engine `FMath::IsNearlyEqual(A, B)`, the float subtraction rounded by `fl`. -/
def IsNearlyEqualRounded (fl : ℚ → ℚ) (A B : ℚ) : Bool := decide (|fl (A - B)| ≤ SMALL_NUMBER)

end FMath

namespace URPGAttributeSet

/-- `URPGAttributeSet::AdjustAttributeForMaxChange` with the float operations rounded by `fl`:
the product, the quotient and the difference of `NewDelta`, and the sum that
`ApplyModToAttributeUnsafe` computes. -/
def AdjustAttributeForMaxChangeRounded (fl : ℚ → ℚ) (AbilityComp : Bool)
    (CurrentValue CurrentMaxValue NewMaxValue : ℚ) : ℚ :=
  if (!FMath.IsNearlyEqualRounded fl CurrentMaxValue NewMaxValue) && AbilityComp then
    let NewDelta :=
      if CurrentMaxValue > 0 then
        fl (fl (fl (CurrentValue * NewMaxValue) / CurrentMaxValue) - CurrentValue)
      else NewMaxValue
    fl (CurrentValue + NewDelta)
  else CurrentValue

/-- `URPGAttributeSet::PostGameplayEffectExecute` with its one float operation, the subtraction
of the damage from the hit points, rounded by `fl`. -/
def PostGameplayEffectExecuteRounded (fl : ℚ → ℚ) (s : URPGAttributeSet)
    (Data : FGameplayEffectModCallbackData) : URPGAttributeSet :=
  let DeltaValue : ℚ := if Data.ModifierOp = .Additive then Data.Magnitude else 0
  if Data.Attribute = .Damage then
    let LocalDamageDone := s.Damage
    let s1 := { s with Damage := 0 }
    if LocalDamageDone > 0 then
      let OldHitPoints := s1.HitPoints
      let s2 := { s1 with
        HitPoints := FMath.Clamp (fl (OldHitPoints - LocalDamageDone)) 0 s1.MaxHitPoints }
      if Data.TargetCharacter then
        { s2 with Events := s2.Events ++
            [.HandleDamage LocalDamageDone, .HandleHitPointsChanged (-LocalDamageDone)] }
      else s2
    else s1
  else if Data.Attribute = .HitPoints then
    let s1 := { s with HitPoints := FMath.Clamp s.HitPoints 0 s.MaxHitPoints }
    if Data.TargetCharacter then
      { s1 with Events := s1.Events ++ [.HandleHitPointsChanged DeltaValue] }
    else s1
  else if Data.Attribute = .Speed then
    if Data.TargetCharacter then
      { s with Events := s.Events ++ [.HandleMoveSpeedChanged DeltaValue] }
    else s
  else s

end URPGAttributeSet

/-- Tells the `CommandAdded` broadcasts apart. -/
def CommandEvent.isAdded : CommandEvent → Bool
  | .CommandAdded _ => true
  | _ => false

/-- Tells the `CommandRemoved` broadcasts apart. -/
def CommandEvent.isRemoved : CommandEvent → Bool
  | .CommandRemoved _ => true
  | _ => false

/-- Tells the `CharacterAdded` broadcasts apart. -/
def CharacterEvent.isAdded : CharacterEvent → Bool
  | .CharacterAdded _ => true
  | _ => false

/-- Tells the `CharacterRemoved` broadcasts apart. -/
def CharacterEvent.isRemoved : CharacterEvent → Bool
  | .CharacterRemoved _ => true
  | _ => false

/-- The first two loops of `OnRep_Queue`: the non-null entries of `Source` that `Other` does not
contain, collected in the order of `Source`. -/
def UPF2CommandQueueComponent.CollectMissing (Source Other : List ActorPtr) : List Nat :=
  Source.foldl
    (fun Collected Command =>
      match Command with
      | none => Collected
      | some c => if !TArray.Contains Other (some c) then TArray.Add Collected c else Collected)
    []

/-- `UPF2CommandQueueComponent::OnRep_Queue`; `q.Queue` is the replicated (new) queue. -/
def UPF2CommandQueueComponent.OnRep_Queue (q : UPF2CommandQueueComponent)
    (OldQueue : List ActorPtr) : UPF2CommandQueueComponent :=
  let RemovedCommands := UPF2CommandQueueComponent.CollectMissing OldQueue q.Queue
  let AddedCommands := UPF2CommandQueueComponent.CollectMissing q.Queue OldQueue
  let q1 := RemovedCommands.foldl (fun s c => s.Native_OnCommandRemoved (some c)) q
  let q2 := AddedCommands.foldl (fun s c => s.Native_OnCommandAdded (some c)) q1
  q2.Native_OnCommandsChanged

/-- Modelled from the spec: `PF2ArrayUtilities::CaptureDeltasWithCast` is not among the sources;
the delta capture yields the (non-null) entries of old that are not in new as removed and the
(non-null) entries of new that are not in old as added. -/
def PF2ArrayUtilities.CaptureDeltasWithCast (OldValues NewValues : List ActorPtr) :
    List Nat × List Nat :=
  ((OldValues.filterMap id).filter (fun c => decide (some c ∉ NewValues)),
   (NewValues.filterMap id).filter (fun c => decide (some c ∉ OldValues)))

/-- The loop of `OnRep_CharacterQueue` over the removed characters; `none` when a `check`
fails. -/
def UPF2CharacterQueueComponent.OnRepRemovedLoop (q : UPF2CharacterQueueComponent)
    (OldCharacters : List ActorPtr) : List Nat → Option UPF2CharacterQueueComponent
  | [] => some q
  | c :: rest =>
    let RemovedIndex := TArray.Find OldCharacters (some c)
    if RemovedIndex ≠ -1 then
      (q.Native_OnCharacterRemoved (some c) (toUInt8 RemovedIndex)).bind
        (fun q1 => UPF2CharacterQueueComponent.OnRepRemovedLoop q1 OldCharacters rest)
    else none

/-- `UPF2CharacterQueueComponent::OnRep_CharacterQueue`; `q.Queue` is the replicated (new) queue,
`capture` is `PF2ArrayUtilities::CaptureDeltasWithCast`, giving the removed and the added
characters; `none` when a `check` fails. -/
def UPF2CharacterQueueComponent.OnRep_CharacterQueue
    (capture : List ActorPtr → List ActorPtr → List Nat × List Nat)
    (q : UPF2CharacterQueueComponent) (OldCharacters : List ActorPtr) :
    Option UPF2CharacterQueueComponent :=
  let RemovedCharacters := (capture OldCharacters q.Queue).1
  let AddedCharacters := (capture OldCharacters q.Queue).2
  (UPF2CharacterQueueComponent.OnRepRemovedLoop q OldCharacters RemovedCharacters).map
    (fun q1 =>
      let q2 := AddedCharacters.foldl (fun s c => s.Native_OnCharacterAdded (some c)) q1
      if TArray.Num RemovedCharacters ≠ 0 ∨ TArray.Num AddedCharacters ≠ 0 then
        q2.Native_OnCharactersChanged
      else q2)

/-! ## Repeated cursor moves and the modification of `AdjustAttributeForMaxChange` -/

/-- The characters returned by `k` successive calls of `NextCharacter`, in the order of the calls,
and the component afterwards; `none` when a `check` fails. -/
def UPF2CharacterQueueComponent.NextCharacters :
    Nat → UPF2CharacterQueueComponent → Option (List ActorPtr × UPF2CharacterQueueComponent)
  | 0, q => some ([], q)
  | k + 1, q =>
    q.NextCharacter.bind (fun r =>
      (UPF2CharacterQueueComponent.NextCharacters k r.2).map (fun rs => (r.1 :: rs.1, rs.2)))

/-- The characters returned by `k` successive calls of `PreviousCharacter`, in the order of the
calls, and the component afterwards; `none` when a `check` fails. -/
def UPF2CharacterQueueComponent.PreviousCharacters :
    Nat → UPF2CharacterQueueComponent → Option (List ActorPtr × UPF2CharacterQueueComponent)
  | 0, q => some ([], q)
  | k + 1, q =>
    q.PreviousCharacter.bind (fun r =>
      (UPF2CharacterQueueComponent.PreviousCharacters k r.2).map (fun rs => (r.1 :: rs.1, rs.2)))

/-- The call of `ApplyModToAttributeUnsafe` that `URPGAttributeSet::AdjustAttributeForMaxChange`
makes: `some NewDelta` when the additive modification `NewDelta` is applied to the affected
attribute, `none` when the guard skips the call. -/
def URPGAttributeSet.AdjustAttributeForMaxChangeMod (AbilityComp : Bool)
    (CurrentValue CurrentMaxValue NewMaxValue : ℚ) : Option ℚ :=
  if (!FMath.IsNearlyEqual CurrentMaxValue NewMaxValue) && AbilityComp then
    some (if CurrentMaxValue > 0 then CurrentValue * NewMaxValue / CurrentMaxValue - CurrentValue
      else NewMaxValue)
  else none

/-! ## Lemmas on the command queue -/

namespace UPF2CommandQueueComponent

theorem Enqueue_of_not_mem (q : UPF2CommandQueueComponent) (c : Nat) (h : some c ∉ q.Queue) :
    Enqueue q c = some ⟨q.Queue ++ [some c],
      q.Events ++ [.CommandAdded (some c), .CommandsChanged (q.Queue.filterMap id ++ [c])],
      q.Attempts⟩ := by
  simp [Enqueue, TArray.Contains, TArray.Add, Native_OnCommandsChanged, Native_OnCommandAdded, h]

theorem Enqueue_of_mem (q : UPF2CommandQueueComponent) (c : Nat) (h : some c ∈ q.Queue) :
    Enqueue q c = none := by
  simp [Enqueue, TArray.Contains, h]

theorem DropNext_queue (q : UPF2CommandQueueComponent) : (DropNext q).Queue = q.Queue.dropLast := by
  unfold DropNext
  by_cases h : q.Count ≠ 0
  · simp [h, Native_OnCommandsChanged, Native_OnCommandRemoved, TArray.PopRest]
  · have h0 : q.Queue = [] := by
      simpa [Count, TArray.Num] using h
    simp [Count, TArray.Num, h0]

theorem PopNext_queue (q : UPF2CommandQueueComponent) : (PopNext q).2.Queue = q.Queue.dropLast := by
  unfold PopNext
  by_cases h : q.Count ≠ 0
  · simp [h, Native_OnCommandsChanged, Native_OnCommandRemoved, TArray.PopRest]
  · have h0 : q.Queue = [] := by
      simpa [Count, TArray.Num] using h
    simp [Count, TArray.Num, h0]

theorem PopAndExecuteNext_queue (attempt : Nat → EPF2CommandExecuteImmediatelyResult)
    (q : UPF2CommandQueueComponent) :
    (PopAndExecuteNext attempt q).2.Queue = q.Queue ∨
      (PopAndExecuteNext attempt q).2.Queue = q.Queue.dropLast := by
  unfold PopAndExecuteNext
  have hp : (PeekNext q).2 = q := by
    unfold PeekNext; split <;> rfl
  cases hpeek : (PeekNext q).1 with
  | none => left; simp [hp, hpeek]
  | some c =>
    by_cases hb : attempt c = .Blocked
    · left; simp [hb, hp, hpeek]
    · right; simp [hb, hp, hpeek, DropNext_queue]

theorem Remove_queue (q : UPF2CommandQueueComponent) (c : Nat) :
    (Remove q c).2.Queue = q.Queue.filter (fun y => decide (y ≠ some c)) := by
  unfold Remove
  by_cases h : TArray.RemoveCount q.Queue (some c) > 0
  · simp [h, Native_OnCommandsChanged, Native_OnCommandRemoved, TArray.Remove]
  · simp [h, TArray.Remove]

end UPF2CommandQueueComponent

theorem CommandCall.apply_nodup (q q1 : UPF2CommandQueueComponent) (call : CommandCall)
    (hq : q.Queue.Nodup) (h : call.apply q = some q1) : q1.Queue.Nodup := by
  cases call with
  | Enqueue c =>
    by_cases hm : some c ∈ q.Queue
    · simp [CommandCall.apply, UPF2CommandQueueComponent.Enqueue_of_mem q c hm] at h
    · simp only [CommandCall.apply, UPF2CommandQueueComponent.Enqueue_of_not_mem q c hm,
        Option.some.injEq] at h
      subst h
      exact List.Nodup.append hq (List.nodup_singleton _) (by simpa using hm)
  | PopNext =>
    simp only [CommandCall.apply, Option.some.injEq] at h
    subst h
    rw [UPF2CommandQueueComponent.PopNext_queue]
    exact hq.sublist (List.dropLast_sublist _)
  | DropNext =>
    simp only [CommandCall.apply, Option.some.injEq] at h
    subst h
    rw [UPF2CommandQueueComponent.DropNext_queue]
    exact hq.sublist (List.dropLast_sublist _)
  | PopAndExecuteNext attempt =>
    simp only [CommandCall.apply, Option.some.injEq] at h
    subst h
    rcases UPF2CommandQueueComponent.PopAndExecuteNext_queue attempt q with h1 | h1
    · rw [h1]; exact hq
    · rw [h1]; exact hq.sublist (List.dropLast_sublist _)
  | Remove c =>
    simp only [CommandCall.apply, Option.some.injEq] at h
    subst h
    rw [UPF2CommandQueueComponent.Remove_queue]
    exact hq.filter _
  | Clear =>
    simp only [CommandCall.apply, Option.some.injEq] at h
    subst h
    simp [UPF2CommandQueueComponent.Clear, UPF2CommandQueueComponent.Native_OnCommandsChanged,
      TArray.Empty]

theorem CommandCall.run_nodup (calls : List CommandCall) :
    ∀ (q q1 : UPF2CommandQueueComponent), q.Queue.Nodup → CommandCall.run q calls = some q1 →
      q1.Queue.Nodup := by
  induction calls with
  | nil =>
    intro q q1 hq h
    simp only [CommandCall.run, Option.some.injEq] at h
    subst h
    exact hq
  | cons call rest ih =>
    intro q q1 hq h
    simp only [CommandCall.run] at h
    cases hstep : call.apply q with
    | none => simp [hstep] at h
    | some q2 =>
      rw [hstep] at h
      exact ih q2 q1 (CommandCall.apply_nodup q q2 call hq hstep) (by simpa using h)

theorem enqueueAll_queue (cs : List Nat) :
    ∀ q : UPF2CommandQueueComponent, cs.Nodup → (∀ c ∈ cs, some c ∉ q.Queue) →
      ∃ q1, enqueueAll q cs = some q1 ∧ q1.Queue = q.Queue ++ cs.map some := by
  induction cs with
  | nil =>
    intro q _ _
    exact ⟨q, rfl, by simp⟩
  | cons c rest ih =>
    intro q hnd hfresh
    have hc : some c ∉ q.Queue := hfresh c (List.mem_cons_self _ _)
    have hnd1 := List.nodup_cons.mp hnd
    obtain ⟨q1, hrun, hqueue⟩ := ih
      ⟨q.Queue ++ [some c],
        q.Events ++ [.CommandAdded (some c), .CommandsChanged (q.Queue.filterMap id ++ [c])],
        q.Attempts⟩ hnd1.2
      (by
        intro d hd
        simp only [List.mem_append, List.mem_singleton, Option.some.injEq, not_or]
        refine ⟨hfresh d (List.mem_cons_of_mem _ hd), ?_⟩
        rintro rfl
        exact hnd1.1 hd)
    refine ⟨q1, ?_, ?_⟩
    · simp only [enqueueAll, List.map_cons, CommandCall.run, CommandCall.apply,
        UPF2CommandQueueComponent.Enqueue_of_not_mem q c hc, Option.some_bind]
      exact hrun
    · simp [hqueue]

/-! ## Command queue: `PeekNext`, `PopNext`, `PopAndExecuteNext` -/

/-- C1: on the queue `[A, B]` (A = 1 enqueued first, B = 2 enqueued last) `PeekNext` returns A,
the entry at index 0, whereas `PopNext` removes and returns B, the last entry, and leaves `[A]`:
the command popped is not the command peeked. -/
theorem C1_PopNext_returns_other_than_PeekNext :
    (UPF2CommandQueueComponent.PeekNext ⟨[some 1, some 2], [], []⟩).1 = some 1 ∧
    (UPF2CommandQueueComponent.PopNext ⟨[some 1, some 2], [], []⟩).1 = some 2 ∧
    (UPF2CommandQueueComponent.PopNext ⟨[some 1, some 2], [], []⟩).2.Queue = [some 1] ∧
    (UPF2CommandQueueComponent.PopNext ⟨[some 1, some 2], [], []⟩).2.Events =
      [.CommandRemoved (some 2), .CommandsChanged [1]] := by
  decide

/-- C2: on the queue `[A, B]` with every execution attempt answering `Activated`,
`PopAndExecuteNext` attempts the execution of A (the entry `PeekNext` returns) and then drops B
(the last entry): the command attempted stays in the queue and another one is removed. -/
theorem C2_PopAndExecuteNext_drops_other_than_attempted :
    (UPF2CommandQueueComponent.PopAndExecuteNext (fun _ => .Activated)
        ⟨[some 1, some 2], [], []⟩).1 = .Activated ∧
    (UPF2CommandQueueComponent.PopAndExecuteNext (fun _ => .Activated)
        ⟨[some 1, some 2], [], []⟩).2.Attempts = [1] ∧
    (UPF2CommandQueueComponent.PopAndExecuteNext (fun _ => .Activated)
        ⟨[some 1, some 2], [], []⟩).2.Queue = [some 1] ∧
    (UPF2CommandQueueComponent.PopAndExecuteNext (fun _ => .Activated)
        ⟨[some 1, some 2], [], []⟩).2.Events = [.CommandRemoved (some 2), .CommandsChanged [1]] := by
  decide

/-- C3: when the queue is not empty, its next command is `c` and the attempt at executing `c`
answers `Blocked`, `PopAndExecuteNext` returns `Blocked`, leaves the queue contents, their order and
`Count` as they were, broadcasts nothing (no `CommandRemoved`, no `CommandsChanged`), made exactly
the one attempt on `c`, and `PeekNext` afterwards returns the same command as before. -/
theorem C3_blocked_keeps_queue (attempt : Nat → EPF2CommandExecuteImmediatelyResult)
    (q : UPF2CommandQueueComponent) (c : Nat)
    (hne : q.Count ≠ 0)
    (hnext : (UPF2CommandQueueComponent.PeekNext q).1 = some c)
    (hblocked : attempt c = .Blocked) :
    (UPF2CommandQueueComponent.PopAndExecuteNext attempt q).1 = .Blocked ∧
    (UPF2CommandQueueComponent.PopAndExecuteNext attempt q).2.Queue = q.Queue ∧
    (UPF2CommandQueueComponent.PopAndExecuteNext attempt q).2.Count = q.Count ∧
    (UPF2CommandQueueComponent.PopAndExecuteNext attempt q).2.Events = q.Events ∧
    (UPF2CommandQueueComponent.PopAndExecuteNext attempt q).2.Attempts = q.Attempts ++ [c] ∧
    (UPF2CommandQueueComponent.PeekNext
      (UPF2CommandQueueComponent.PopAndExecuteNext attempt q).2).1 = some c := by
  have hp : (UPF2CommandQueueComponent.PeekNext q).2 = q := by
    unfold UPF2CommandQueueComponent.PeekNext; split <;> rfl
  have hres : UPF2CommandQueueComponent.PopAndExecuteNext attempt q =
      (.Blocked, { q with Attempts := q.Attempts ++ [c] }) := by
    simp [UPF2CommandQueueComponent.PopAndExecuteNext, hnext, hblocked, hp]
  rw [hres]
  refine ⟨rfl, rfl, rfl, rfl, rfl, ?_⟩
  have hne1 : TArray.Num q.Queue ≠ 0 := hne
  simp only [UPF2CommandQueueComponent.PeekNext, UPF2CommandQueueComponent.Count, ne_eq, hne1,
    not_false_eq_true, if_true] at hnext ⊢
  exact hnext

/-- C3, at the queue `[A, B]` whose next command A is blocked. -/
theorem C3_blocked_keeps_queue_witness :
    (UPF2CommandQueueComponent.PopAndExecuteNext (fun _ => .Blocked) ⟨[some 1, some 2], [], []⟩).1
        = .Blocked ∧
    (UPF2CommandQueueComponent.PopAndExecuteNext (fun _ => .Blocked)
        ⟨[some 1, some 2], [], []⟩).2.Queue = [some 1, some 2] ∧
    (UPF2CommandQueueComponent.PopAndExecuteNext (fun _ => .Blocked)
        ⟨[some 1, some 2], [], []⟩).2.Events = [] :=
  have h := C3_blocked_keeps_queue (fun _ => .Blocked) ⟨[some 1, some 2], [], []⟩ 1
    (by decide) (by decide) rfl
  ⟨h.1, h.2.1, h.2.2.2.1⟩

/-- C4, as the spec states it, fails: after enqueuing 1 and then 2 into the empty queue,
`PeekNext` returns 1, not the most recently added command 2. -/
theorem C4_PeekNext_not_most_recent :
    (enqueueAll UPF2CommandQueueComponent.empty [1, 2]).map
        (fun q => (UPF2CommandQueueComponent.PeekNext q).1) = some (some 1) ∧
    (enqueueAll UPF2CommandQueueComponent.empty [1, 2]).map
        (fun q => (UPF2CommandQueueComponent.PeekNext q).1) ≠ some (some 2) := by
  decide

/-- C4, amended: enqueuing the distinct commands `c1, cs` in that order into the empty queue
succeeds and gives the queue `c1, cs`; `PeekNext` then returns `c1`, the command added FIRST, and
leaves the component (contents, order, events) unchanged. -/
theorem C4_PeekNext_returns_first_enqueued (c1 : Nat) (cs : List Nat) (hd : (c1 :: cs).Nodup) :
    ∃ q, enqueueAll UPF2CommandQueueComponent.empty (c1 :: cs) = some q ∧
      q.Queue = (c1 :: cs).map some ∧
      (UPF2CommandQueueComponent.PeekNext q).1 = some c1 ∧
      (UPF2CommandQueueComponent.PeekNext q).2 = q := by
  obtain ⟨q, hrun, hq⟩ := enqueueAll_queue (c1 :: cs) UPF2CommandQueueComponent.empty hd
    (by simp [UPF2CommandQueueComponent.empty])
  refine ⟨q, hrun, ?_, ?_, ?_⟩
  · simpa [UPF2CommandQueueComponent.empty] using hq
  · have hq1 : q.Queue = some c1 :: cs.map some := by
      simpa [UPF2CommandQueueComponent.empty] using hq
    simp [UPF2CommandQueueComponent.PeekNext, UPF2CommandQueueComponent.Count, TArray.Num, hq1]
  · unfold UPF2CommandQueueComponent.PeekNext; split <;> rfl

/-- C4 amended, at the commands 1, 2, 3. -/
theorem C4_PeekNext_returns_first_enqueued_witness :
    ∃ q, enqueueAll UPF2CommandQueueComponent.empty [1, 2, 3] = some q ∧
      q.Queue = [some 1, some 2, some 3] ∧
      (UPF2CommandQueueComponent.PeekNext q).1 = some 1 ∧
      (UPF2CommandQueueComponent.PeekNext q).2 = q :=
  C4_PeekNext_returns_first_enqueued 1 [2, 3] (by decide)

/-! ## Character queue: the cursor bound -/

/-- C5: the calls `Add 1, Add 2, Add 3, Add 4, NextCharacter, NextCharacter, NextCharacter,
Clear, Add 5` on the initial roster all succeed; `Clear` leaves the active index at 1, and the run
ends with `Count = 1` and active index 1, which is not below `Count`: the bounds `check` of
`GetActiveCharacter` fails there. -/
theorem C5_cursor_out_of_bounds_after_Clear_and_Add :
    (RosterCall.run UPF2CharacterQueueComponent.initial
        [.Add 1, .Add 2, .Add 3, .Add 4, .NextCharacter, .NextCharacter, .NextCharacter,
          .Clear]).map
      (fun q => (q.Queue, q.Count, q.ActiveCharacterIndex)) = some ([], 0, 1) ∧
    (RosterCall.run UPF2CharacterQueueComponent.initial
        [.Add 1, .Add 2, .Add 3, .Add 4, .NextCharacter, .NextCharacter, .NextCharacter,
          .Clear, .Add 5]).map
      (fun q => (q.Queue, q.Count, q.ActiveCharacterIndex, q.GetActiveCharacter))
      = some ([some 5], 1, 1, none) := by
  decide

/-! ## Command queue: uniqueness and `Enqueue` -/

/-- C9: a queue reached from the empty queue by calls of `Enqueue`, `PopNext`, `DropNext`,
`PopAndExecuteNext`, `Remove` and `Clear` that all succeed holds no command twice, so `Count` is
the number of distinct entries of the queue. -/
theorem C9_reachable_queue_has_no_duplicates (calls : List CommandCall)
    (q : UPF2CommandQueueComponent)
    (hreach : CommandCall.run UPF2CommandQueueComponent.empty calls = some q) :
    q.Queue.Nodup ∧ q.Count = q.Queue.toFinset.card := by
  have hnd : q.Queue.Nodup :=
    CommandCall.run_nodup calls UPF2CommandQueueComponent.empty q
      (by simp [UPF2CommandQueueComponent.empty]) hreach
  refine ⟨hnd, ?_⟩
  rw [List.toFinset_card_of_nodup hnd]
  rfl

/-- C9, at `Enqueue 1, Enqueue 2, PopNext, Enqueue 2, Remove 1, Enqueue 3`, which ends with the
queue `[2, 3]`. -/
theorem C9_reachable_queue_has_no_duplicates_witness :
    [some 2, some (3 : Nat)].Nodup ∧
    UPF2CommandQueueComponent.Count ⟨[some 2, some 3],
          [.CommandAdded (some 1), .CommandsChanged [1], .CommandAdded (some 2),
            .CommandsChanged [1, 2], .CommandRemoved (some 2), .CommandsChanged [1],
            .CommandAdded (some 2), .CommandsChanged [1, 2], .CommandRemoved (some 1),
            .CommandsChanged [2], .CommandAdded (some 3), .CommandsChanged [2, 3]], []⟩
      = [some 2, some (3 : Nat)].toFinset.card :=
  C9_reachable_queue_has_no_duplicates
    [.Enqueue 1, .Enqueue 2, .PopNext, .Enqueue 2, .Remove 1, .Enqueue 3]
    ⟨[some 2, some 3],
          [.CommandAdded (some 1), .CommandsChanged [1], .CommandAdded (some 2),
            .CommandsChanged [1, 2], .CommandRemoved (some 2), .CommandsChanged [1],
            .CommandAdded (some 2), .CommandsChanged [1, 2], .CommandRemoved (some 1),
            .CommandsChanged [2], .CommandAdded (some 3), .CommandsChanged [2, 3]], []⟩
    (by decide)

/-- C10: `Enqueue c` fails exactly when `c` is already in the queue; otherwise the queue becomes
the old queue with `c` appended at the end, `Count` grows by one, and the broadcasts made are
`CommandAdded c` followed by `CommandsChanged` with the (non-null) entries of the new queue, which
are all of its entries when the queue holds no null entry. -/
theorem C10_Enqueue_contract (q : UPF2CommandQueueComponent) (c : Nat) :
    (UPF2CommandQueueComponent.Enqueue q c = none ↔ some c ∈ q.Queue) ∧
    (UPF2CommandQueueComponent.Enqueue q c =
      if some c ∈ q.Queue then none
      else some ⟨q.Queue ++ [some c],
        q.Events ++ [.CommandAdded (some c),
          .CommandsChanged ((q.Queue ++ [some c]).filterMap id)],
        q.Attempts⟩) ∧
    ((UPF2CommandQueueComponent.Enqueue q c).map UPF2CommandQueueComponent.Count =
      if some c ∈ q.Queue then none else some (q.Count + 1)) ∧
    (∀ cs : List Nat, q.Queue = cs.map some →
      (q.Queue ++ [some c]).filterMap id = cs ++ [c]) := by
  by_cases h : some c ∈ q.Queue
  · refine ⟨?_, ?_, ?_, ?_⟩
    · simp [UPF2CommandQueueComponent.Enqueue_of_mem q c h, h]
    · simp [UPF2CommandQueueComponent.Enqueue_of_mem q c h, h]
    · simp [UPF2CommandQueueComponent.Enqueue_of_mem q c h, h]
    · intro cs hcs
      simp [hcs, List.filterMap_append, List.filterMap_map]
  · refine ⟨?_, ?_, ?_, ?_⟩
    · simp [UPF2CommandQueueComponent.Enqueue_of_not_mem q c h, h]
    · simp [UPF2CommandQueueComponent.Enqueue_of_not_mem q c h, h, List.filterMap_append]
    · simp [UPF2CommandQueueComponent.Enqueue_of_not_mem q c h, h,
        UPF2CommandQueueComponent.Count, TArray.Num]
    · intro cs hcs
      simp [hcs, List.filterMap_append, List.filterMap_map]

/-! ## Attribute set: clamping and rescaling -/

theorem FMath.Clamp_bounds (X Max : ℚ) (hMax : 0 ≤ Max) :
    0 ≤ FMath.Clamp X 0 Max ∧ FMath.Clamp X 0 Max ≤ Max := by
  unfold FMath.Clamp
  split_ifs with h1 h2
  · exact ⟨le_refl _, hMax⟩
  · exact ⟨not_lt.mp h1, le_of_lt h2⟩
  · exact ⟨hMax, le_refl _⟩

theorem URPGAttributeSet.SetMax_fields (s : URPGAttributeSet) (AbilityComp : Bool)
    (NewMaxValue : ℚ) :
    (s.SetMax AbilityComp NewMaxValue).MaxHitPoints = NewMaxValue ∧
    (s.SetMax AbilityComp NewMaxValue).HitPoints =
      URPGAttributeSet.AdjustAttributeForMaxChange AbilityComp s.HitPoints s.MaxHitPoints
        NewMaxValue := by
  simp [URPGAttributeSet.SetMax, URPGAttributeSet.PreAttributeChange]

theorem URPGAttributeSet.Adjust_of_pos (c m n : ℚ) (hm : 0 < m)
    (hne : FMath.IsNearlyEqual m n = false) :
    URPGAttributeSet.AdjustAttributeForMaxChange true c m n = c * n / m := by
  simp [URPGAttributeSet.AdjustAttributeForMaxChange, hne, hm]

theorem URPGAttributeSet.Adjust_of_nonpos (c m n : ℚ) (hm : m ≤ 0)
    (hne : FMath.IsNearlyEqual m n = false) :
    URPGAttributeSet.AdjustAttributeForMaxChange true c m n = c + n := by
  simp [URPGAttributeSet.AdjustAttributeForMaxChange, hne, not_lt.mpr hm]

theorem URPGAttributeSet.AdjustAttributeForMaxChangeRounded_id (AbilityComp : Bool)
    (c m n : ℚ) :
    URPGAttributeSet.AdjustAttributeForMaxChangeRounded id AbilityComp c m n =
      URPGAttributeSet.AdjustAttributeForMaxChange AbilityComp c m n := rfl

theorem URPGAttributeSet.PostGameplayEffectExecuteRounded_id (s : URPGAttributeSet)
    (Data : FGameplayEffectModCallbackData) :
    s.PostGameplayEffectExecuteRounded id Data = s.PostGameplayEffectExecute Data := rfl

/-- C7, as the spec states it, fails: with current value 50 and old maximum 0, changing the
maximum to 100 leaves the current value at 150, not 100. -/
theorem C7_zero_old_max_gives_150 :
    URPGAttributeSet.AdjustAttributeForMaxChange true 50 0 100 = 150 ∧
    (URPGAttributeSet.SetMax ⟨50, 0, 0, []⟩ true 100).HitPoints = 150 ∧
    (URPGAttributeSet.SetMax ⟨50, 0, 0, []⟩ true 100).HitPoints ≠ 100 := by
  norm_num [URPGAttributeSet.SetMax, URPGAttributeSet.PreAttributeChange,
    URPGAttributeSet.AdjustAttributeForMaxChange, FMath.IsNearlyEqual, FMath.SMALL_NUMBER]

/-- C7, amended: with the ability-system binding present, an old maximum `m <= 0` and a new
maximum `n` not nearly equal to `m`, changing the maximum ADDS `n` to the current value `c`: the
current value becomes `c + n`, which is exactly `n` when `c = 0`. -/
theorem C7_nonpositive_old_max_adds_new_max (s : URPGAttributeSet) (n : ℚ)
    (hm : s.MaxHitPoints ≤ 0) (hne : FMath.IsNearlyEqual s.MaxHitPoints n = false) :
    URPGAttributeSet.AdjustAttributeForMaxChange true s.HitPoints s.MaxHitPoints n
      = s.HitPoints + n ∧
    (s.SetMax true n).HitPoints = s.HitPoints + n ∧
    (s.SetMax true n).MaxHitPoints = n ∧
    (s.HitPoints = 0 → (s.SetMax true n).HitPoints = n) := by
  obtain ⟨h1, h2⟩ := URPGAttributeSet.SetMax_fields s true n
  have h3 := URPGAttributeSet.Adjust_of_nonpos s.HitPoints s.MaxHitPoints n hm hne
  refine ⟨h3, by rw [h2, h3], h1, ?_⟩
  intro h0
  rw [h2, h3, h0, zero_add]

/-- C7 amended, at current value 50, old maximum 0, new maximum 100. -/
theorem C7_nonpositive_old_max_adds_new_max_witness :
    (URPGAttributeSet.SetMax ⟨50, 0, 0, []⟩ true 100).HitPoints = 50 + 100 :=
  (C7_nonpositive_old_max_adds_new_max ⟨50, 0, 0, []⟩ 100 (le_refl _)
    (by
      unfold FMath.IsNearlyEqual FMath.SMALL_NUMBER
      rw [decide_eq_false_iff_not, abs_le]
      norm_num)).2.1

/-- C8: with the ability-system binding present, an old maximum `m > 0` and a new maximum `n` not
nearly equal to `m`, changing the maximum to `n` changes the current value `c` to `c * n / m`
(exact rationals); the ratio current/maximum is the same before and after when `n` is not 0. -/
theorem C8_positive_old_max_rescales (s : URPGAttributeSet) (n : ℚ)
    (hm : 0 < s.MaxHitPoints) (hne : FMath.IsNearlyEqual s.MaxHitPoints n = false) :
    URPGAttributeSet.AdjustAttributeForMaxChange true s.HitPoints s.MaxHitPoints n
      = s.HitPoints * n / s.MaxHitPoints ∧
    (s.SetMax true n).HitPoints = s.HitPoints * n / s.MaxHitPoints ∧
    (s.SetMax true n).MaxHitPoints = n ∧
    (n ≠ 0 → (s.SetMax true n).HitPoints / (s.SetMax true n).MaxHitPoints
      = s.HitPoints / s.MaxHitPoints) := by
  obtain ⟨h1, h2⟩ := URPGAttributeSet.SetMax_fields s true n
  have h3 := URPGAttributeSet.Adjust_of_pos s.HitPoints s.MaxHitPoints n hm hne
  refine ⟨h3, by rw [h2, h3], h1, ?_⟩
  intro hn
  rw [h1, h2, h3]
  field_simp
  ring

/-- C8, at current value 50, old maximum 100, new maximum 50: the current value becomes 25. -/
theorem C8_positive_old_max_rescales_witness :
    (URPGAttributeSet.SetMax ⟨50, 100, 0, []⟩ true 50).HitPoints = 25 := by
  have h := (C8_positive_old_max_rescales ⟨50, 100, 0, []⟩ 50 (by norm_num)
    (by
      unfold FMath.IsNearlyEqual FMath.SMALL_NUMBER
      rw [decide_eq_false_iff_not, abs_le]
      norm_num)).2.1
  rw [h]
  norm_num

/-! ## Lemmas on the character queue -/

theorem toUInt8_natCast (r : Nat) : toUInt8 (r : Int) = r % 256 := by
  unfold toUInt8
  omega

theorem TArray.Remove_of_map_some (cs : List Nat) (c : Nat) :
    TArray.Remove (cs.map some) (some c) = (cs.filter (fun y => decide (y ≠ c))).map some := by
  simp [TArray.Remove, List.filter_map, Function.comp_def]

theorem List.filter_ne_eq_eraseIdx (cs : List Nat) :
    ∀ (r c : Nat), cs.Nodup → cs[r]? = some c →
      cs.filter (fun y => decide (y ≠ c)) = cs.eraseIdx r := by
  induction cs with
  | nil => intro r c _ h; simp at h
  | cons d rest ih =>
    intro r c hnd h
    obtain ⟨hd, hrest⟩ := List.nodup_cons.mp hnd
    cases r with
    | zero =>
      simp only [List.getElem?_cons_zero, Option.some.injEq] at h
      subst h
      simp only [List.eraseIdx_cons_zero, List.filter_cons, ne_eq, not_true_eq_false,
        decide_False, Bool.false_eq_true, if_false]
      rw [List.filter_eq_self]
      intro y hy
      simp only [ne_eq, decide_not, Bool.not_eq_true', decide_eq_false_iff_not]
      rintro rfl
      exact hd hy
    | succ k =>
      simp only [List.getElem?_cons_succ] at h
      have hmem : c ∈ rest := List.mem_iff_getElem?.mpr ⟨k, h⟩
      have hdc : d ≠ c := by
        rintro rfl
        exact hd hmem
      rw [List.eraseIdx_cons_succ, ← ih k c hrest h]
      simp [List.filter_cons, hdc]

theorem TArray.Find_of_getElem? {α : Type} [DecidableEq α] (xs : List α) (r : Nat) (x : α)
    (hnd : xs.Nodup) (h : xs[r]? = some x) : TArray.Find xs x = (r : Int) := by
  have hmem : x ∈ xs := List.mem_iff_getElem?.mpr ⟨r, h⟩
  obtain ⟨hlt, hget⟩ := List.getElem?_eq_some.mp h
  unfold TArray.Find
  rw [if_pos hmem]
  subst hget
  rw [List.indexOf_getElem hnd r hlt]

theorem TArray.Find_map_some (cs : List Nat) (r c : Nat) (hnd : cs.Nodup)
    (h : cs[r]? = some c) : TArray.Find (cs.map some) (some c) = (r : Int) :=
  TArray.Find_of_getElem? (cs.map some) r (some c)
    (hnd.map (Option.some_injective Nat)) (by simp [List.getElem?_map, h])

theorem TArray.RemoveCount_pos_iff {α : Type} [DecidableEq α] (xs : List α) (x : α) :
    TArray.RemoveCount xs x > 0 ↔ x ∈ xs := by
  unfold TArray.RemoveCount
  exact List.count_pos_iff

theorem TArray.RemoveCount_pos (cs : List Nat) (c : Nat) (h : c ∈ cs) :
    TArray.RemoveCount (cs.map some) (some c) > 0 :=
  (TArray.RemoveCount_pos_iff (cs.map some) (some c)).mpr (by simpa using h)

namespace UPF2CharacterQueueComponent

theorem GetActiveCharacter_map_some (cs : List Nat) (a : Nat) (ev : List CharacterEvent)
    (h : a < cs.length ∨ cs = []) :
    GetActiveCharacter ⟨cs.map some, a, ev⟩ = some cs[a]? := by
  unfold GetActiveCharacter
  rcases h with h | h
  · have hne : ¬ (Count ⟨cs.map some, a, ev⟩ = 0) := by
      simp only [Count, TArray.Num, List.length_map]
      omega
    have hlt : a < Count ⟨cs.map some, a, ev⟩ := by
      simpa [Count, TArray.Num] using h
    rw [if_neg hne, if_pos hlt]
    simp [List.getD, List.getElem?_map, List.getElem?_eq_getElem h]
  · subst h
    simp [Count, TArray.Num]

theorem Native_OnCharacterRemoved_map_some (cs : List Nat) (a i : Nat) (c : ActorPtr)
    (ev : List CharacterEvent) (h : a - 1 < cs.length ∨ cs = []) :
    Native_OnCharacterRemoved ⟨cs.map some, a, ev⟩ c i =
      some ⟨cs.map some, if i ≤ a then a - 1 else a,
        ev ++ (if i ≤ a then [CharacterEvent.ActiveCharacterChanged cs[a - 1]?] else []) ++
          [.CharacterRemoved c]⟩ := by
  unfold Native_OnCharacterRemoved
  by_cases hia : i ≤ a
  · have hq1 : (if (⟨cs.map some, a, ev⟩ : UPF2CharacterQueueComponent).ActiveCharacterIndex ≠ 0
          then ({ (⟨cs.map some, a, ev⟩ : UPF2CharacterQueueComponent) with
            ActiveCharacterIndex := a - 1 } : UPF2CharacterQueueComponent)
          else ⟨cs.map some, a, ev⟩) = ⟨cs.map some, a - 1, ev⟩ := by
      by_cases h0 : a = 0
      · subst h0; simp
      · simp [h0]
    simp only [ge_iff_le, hia, if_true, hq1, GetActiveCharacter_map_some cs (a - 1) ev h,
      Native_OnActiveCharacterChanged]
  · simp [hia]

theorem Remove_map_some (cs : List Nat) (a r c : Nat) (ev : List CharacterEvent)
    (hnd : cs.Nodup) (hr : cs[r]? = some c) (ha : a < cs.length) :
    Remove ⟨cs.map some, a, ev⟩ c = some (true,
      ⟨(cs.eraseIdx r).map some, if r % 256 ≤ a then a - 1 else a,
        ev ++ (if r % 256 ≤ a then
            [CharacterEvent.ActiveCharacterChanged (cs.eraseIdx r)[a - 1]?] else []) ++
          [.CharacterRemoved (some c), .CharactersChanged (cs.eraseIdx r)]⟩) := by
  have hmem : c ∈ cs := List.mem_iff_getElem?.mpr ⟨r, hr⟩
  obtain ⟨hlt, _⟩ := List.getElem?_eq_some.mp hr
  have hlen : (cs.eraseIdx r).length = cs.length - 1 := List.length_eraseIdx_of_lt hlt
  have hvalid : a - 1 < (cs.eraseIdx r).length ∨ cs.eraseIdx r = [] := by
    by_cases h1 : cs.length - 1 = 0
    · right
      exact List.length_eq_zero.mp (by omega)
    · left
      omega
  unfold Remove
  simp only [TArray.RemoveCount_pos cs c hmem, decide_True, if_true,
    TArray.Find_map_some cs r c hnd hr, TArray.Remove_of_map_some,
    List.filter_ne_eq_eraseIdx cs r c hnd hr, toUInt8_natCast]
  have hne : ¬ ((r : Int) = -1) := by omega
  simp only [ne_eq, hne, not_false_eq_true, if_true,
    Native_OnCharacterRemoved_map_some (cs.eraseIdx r) a (r % 256) (some c) ev hvalid,
    Option.map_some', Native_OnCharactersChanged]
  simp [List.filterMap_map]

end UPF2CharacterQueueComponent

/-! ## Character queue: `Remove` -/

/-- C11, as the spec states it, fails on a roster of 257 distinct characters (which 257 calls of
`Add` build): with active index 5, removing the character at index 256 passes the removed index
through a `uint8` parameter, where it is 0, so the active index drops to 4 although the removed
index is greater than the active index. -/
theorem C11_Remove_at_index_256_moves_cursor :
    (List.range 257)[256]? = some 256 ∧ 5 < 256 ∧
    (UPF2CharacterQueueComponent.Remove ⟨(List.range 257).map some, 5, []⟩ 256).map
      (fun p => (p.1, p.2.ActiveCharacterIndex)) = some (true, 4) := by
  set_option maxRecDepth 100000 in decide

/-- C11, amended: on a roster of distinct characters with `0 < Count = n <= 256` and active index
`a < n`, `Remove c` for the character `c` at index `r` returns true, leaves the roster without
`c` (the other entries in their order), and sets the active index to `a - 1` when `r <= a` and
`a > 0`, to 0 when `r <= a` and `a = 0`, and leaves it at `a` when `r > a`. -/
theorem C11_Remove_reindexes_cursor (cs : List Nat) (a r c : Nat) (ev : List CharacterEvent)
    (hnd : cs.Nodup) (hn : 0 < cs.length) (hcap : cs.length ≤ 256) (ha : a < cs.length)
    (hr : cs[r]? = some c) :
    ∃ q1, UPF2CharacterQueueComponent.Remove ⟨cs.map some, a, ev⟩ c = some (true, q1) ∧
      q1.Queue = (cs.filter (fun d => decide (d ≠ c))).map some ∧
      q1.Queue = (cs.eraseIdx r).map some ∧
      q1.Count = cs.length - 1 ∧
      (r ≤ a → 0 < a → q1.ActiveCharacterIndex = a - 1) ∧
      (r ≤ a → a = 0 → q1.ActiveCharacterIndex = 0) ∧
      (a < r → q1.ActiveCharacterIndex = a) := by
  obtain ⟨hlt, _⟩ := List.getElem?_eq_some.mp hr
  have hmod : r % 256 = r := Nat.mod_eq_of_lt (by omega)
  refine ⟨_, UPF2CharacterQueueComponent.Remove_map_some cs a r c ev hnd hr ha, ?_, rfl, ?_,
    ?_, ?_, ?_⟩
  · rw [List.filter_ne_eq_eraseIdx cs r c hnd hr]
  · simp [UPF2CharacterQueueComponent.Count, TArray.Num, List.length_eraseIdx_of_lt hlt]
  · intro h1 _
    simp [hmod, h1]
  · intro h1 h2
    subst h2
    simp [hmod, h1]
  · intro h1
    simp [hmod, Nat.not_le.mpr h1]

/-- C11 amended, at the roster `[1, 2, 3]` with active index 1, removing the character at
index 0. -/
theorem C11_Remove_reindexes_cursor_witness :
    ∃ q1, UPF2CharacterQueueComponent.Remove ⟨[some 1, some 2, some 3], 1, []⟩ 1
        = some (true, q1) ∧
      q1.Queue = [some 2, some 3] ∧ q1.ActiveCharacterIndex = 0 := by
  obtain ⟨q1, h1, h2, _, _, h5, _, _⟩ :=
    C11_Remove_reindexes_cursor [1, 2, 3] 1 0 1 [] (by decide) (by decide) (by decide)
      (by decide) (by decide)
  exact ⟨q1, h1, h2, h5 (by decide) (by decide)⟩

/-- C12: on a roster of distinct characters with active index `a < Count`, removing the character
at an index `r < a` returns true, moves the active index to `a - 1`, leaves `GetActiveCharacter`
returning the same character as before, and broadcasts exactly `ActiveCharacterChanged` with that
same character, then `CharacterRemoved` for the removed character, then `CharactersChanged`. -/
theorem C12_Remove_before_cursor_keeps_active (cs : List Nat) (a r c : Nat)
    (ev : List CharacterEvent) (hnd : cs.Nodup) (ha : a < cs.length) (hra : r < a)
    (hr : cs[r]? = some c) :
    ∃ q1, UPF2CharacterQueueComponent.Remove ⟨cs.map some, a, ev⟩ c = some (true, q1) ∧
      UPF2CharacterQueueComponent.GetActiveCharacter ⟨cs.map some, a, ev⟩ = some (some cs[a]) ∧
      q1.GetActiveCharacter = some (some cs[a]) ∧
      q1.ActiveCharacterIndex = a - 1 ∧
      q1.Events = ev ++ [.ActiveCharacterChanged (some cs[a]), .CharacterRemoved (some c),
        .CharactersChanged (cs.filter (fun d => decide (d ≠ c)))] := by
  obtain ⟨hlt, _⟩ := List.getElem?_eq_some.mp hr
  have hmod : r % 256 ≤ a := le_trans (Nat.mod_le r 256) (le_of_lt hra)
  have hshift : (cs.eraseIdx r)[a - 1]? = some cs[a] := by
    rw [List.getElem?_eraseIdx_of_ge cs r (a - 1) (by omega)]
    have h1 : a - 1 + 1 = a := by omega
    rw [h1, List.getElem?_eq_getElem ha]
  have hlen : (cs.eraseIdx r).length = cs.length - 1 := List.length_eraseIdx_of_lt hlt
  refine ⟨_, UPF2CharacterQueueComponent.Remove_map_some cs a r c ev hnd hr ha, ?_, ?_, ?_, ?_⟩
  · rw [UPF2CharacterQueueComponent.GetActiveCharacter_map_some cs a ev (Or.inl ha),
      List.getElem?_eq_getElem ha]
  · simp only [hmod, if_true]
    rw [UPF2CharacterQueueComponent.GetActiveCharacter_map_some (cs.eraseIdx r) (a - 1) _
      (Or.inl (by omega)), hshift]
  · simp [hmod]
  · simp only [hmod, if_true, hshift, List.append_assoc, List.singleton_append]
    rw [List.filter_ne_eq_eraseIdx cs r c hnd hr]

/-- C12, at the roster `[X, Y, Z] = [1, 2, 3]` with active index 2, removing X: the active index
becomes 1, the active character is still Z, and one `ActiveCharacterChanged Z` is broadcast. -/
theorem C12_Remove_before_cursor_keeps_active_witness :
    ∃ q1, UPF2CharacterQueueComponent.Remove ⟨[some 1, some 2, some 3], 2, []⟩ 1
        = some (true, q1) ∧
      UPF2CharacterQueueComponent.GetActiveCharacter ⟨[some 1, some 2, some 3], 2, []⟩
        = some (some 3) ∧
      q1.GetActiveCharacter = some (some 3) ∧
      q1.ActiveCharacterIndex = 1 ∧
      q1.Events = [.ActiveCharacterChanged (some 3), .CharacterRemoved (some 1),
        .CharactersChanged [2, 3]] :=
  C12_Remove_before_cursor_keeps_active [1, 2, 3] 2 0 1 [] (by decide) (by decide) (by decide)
    (by decide)

/-! ## Character queue: `NextCharacter`, `PreviousCharacter` -/

theorem UPF2CharacterQueueComponent.SetActiveCharacterIndex_map_some (cs : List Nat) (a k : Nat)
    (ev : List CharacterEvent) (ha : a < cs.length) (hk : k < cs.length) :
    UPF2CharacterQueueComponent.SetActiveCharacterIndex ⟨cs.map some, a, ev⟩ k =
      some ⟨cs.map some, k,
        ev ++ (if cs[a]? ≠ cs[k]? then [CharacterEvent.ActiveCharacterChanged cs[k]?] else [])⟩ := by
  unfold UPF2CharacterQueueComponent.SetActiveCharacterIndex
  have hcount : k < UPF2CharacterQueueComponent.Count ⟨cs.map some, a, ev⟩ := by
    simpa [UPF2CharacterQueueComponent.Count, TArray.Num] using hk
  simp only [UPF2CharacterQueueComponent.GetActiveCharacter_map_some cs a ev (Or.inl ha), hcount,
    if_true, UPF2CharacterQueueComponent.GetActiveCharacter_map_some cs k ev (Or.inl hk),
    UPF2CharacterQueueComponent.Native_OnActiveCharacterChanged]
  by_cases hsame : cs[a]? = cs[k]?
  · simp [hsame]
  · simp [hsame]

theorem UPF2CharacterQueueComponent.NextCharacter_map_some (cs : List Nat) (a : Nat)
    (ev : List CharacterEvent) (hn : 0 < cs.length) (hcap : cs.length ≤ 256)
    (ha : a < cs.length) :
    UPF2CharacterQueueComponent.NextCharacter ⟨cs.map some, a, ev⟩ =
      some (cs[(a + 1) % cs.length]?, ⟨cs.map some, (a + 1) % cs.length,
        ev ++ (if cs[a]? ≠ cs[(a + 1) % cs.length]? then
          [CharacterEvent.ActiveCharacterChanged cs[(a + 1) % cs.length]?] else [])⟩) := by
  have hk : (a + 1) % cs.length < cs.length := Nat.mod_lt _ hn
  have hidx : (if a = (cs.length - 1) % 256 then 0 else (a + 1) % 256) = (a + 1) % cs.length := by
    have hmax : (cs.length - 1) % 256 = cs.length - 1 := Nat.mod_eq_of_lt (by omega)
    rw [hmax]
    by_cases hlast : a = cs.length - 1
    · have h1 : a + 1 = cs.length := by omega
      rw [if_pos hlast, h1, Nat.mod_self]
    · rw [if_neg hlast, Nat.mod_eq_of_lt (by omega : a + 1 < 256),
        Nat.mod_eq_of_lt (by omega : a + 1 < cs.length)]
  unfold UPF2CharacterQueueComponent.NextCharacter
  have hlen0 : ¬ cs.length = 0 := by omega
  simp only [ne_eq, UPF2CharacterQueueComponent.GetMaxIndex,
    UPF2CharacterQueueComponent.Count, TArray.Num, List.length_map, hidx, hlen0,
    not_false_eq_true, if_true,
    UPF2CharacterQueueComponent.SetActiveCharacterIndex_map_some cs a _ ev ha hk,
    Option.some_bind, UPF2CharacterQueueComponent.GetActiveCharacter_map_some cs _ _ (Or.inl hk),
    Option.map_some']

theorem UPF2CharacterQueueComponent.PreviousCharacter_map_some (cs : List Nat) (a : Nat)
    (ev : List CharacterEvent) (hn : 0 < cs.length) (hcap : cs.length ≤ 256)
    (ha : a < cs.length) :
    UPF2CharacterQueueComponent.PreviousCharacter ⟨cs.map some, a, ev⟩ =
      some (cs[(a + cs.length - 1) % cs.length]?, ⟨cs.map some, (a + cs.length - 1) % cs.length,
        ev ++ (if cs[a]? ≠ cs[(a + cs.length - 1) % cs.length]? then
          [CharacterEvent.ActiveCharacterChanged cs[(a + cs.length - 1) % cs.length]?]
          else [])⟩) := by
  have hk : (a + cs.length - 1) % cs.length < cs.length := Nat.mod_lt _ hn
  have hidx : (if a = 0 then (cs.length - 1) % 256 else (a - 1) % 256)
      = (a + cs.length - 1) % cs.length := by
    by_cases hfirst : a = 0
    · subst hfirst
      rw [if_pos rfl, Nat.mod_eq_of_lt (by omega : cs.length - 1 < 256), Nat.zero_add,
        Nat.mod_eq_of_lt (by omega : cs.length - 1 < cs.length)]
    · have h1 : a + cs.length - 1 = (a - 1) + cs.length := by omega
      rw [if_neg hfirst, h1, Nat.add_mod_right, Nat.mod_eq_of_lt (by omega : a - 1 < 256),
        Nat.mod_eq_of_lt (by omega : a - 1 < cs.length)]
  unfold UPF2CharacterQueueComponent.PreviousCharacter
  have hlen0 : ¬ cs.length = 0 := by omega
  simp only [ne_eq, UPF2CharacterQueueComponent.GetMaxIndex,
    UPF2CharacterQueueComponent.Count, TArray.Num, List.length_map, hidx, hlen0,
    not_false_eq_true, if_true,
    UPF2CharacterQueueComponent.SetActiveCharacterIndex_map_some cs a _ ev ha hk,
    Option.some_bind, UPF2CharacterQueueComponent.GetActiveCharacter_map_some cs _ _ (Or.inl hk),
    Option.map_some']

/-- C13, as the spec states it, fails on a roster of 257 characters (which 257 calls of `Add`
build) with active index 255: `NextCharacter` computes the new index in a `uint8`, where
`255 + 1` is 0, so the active index becomes 0 and the character at index 0 is returned, whereas
`(255 + 1) mod 257 = 256`. -/
theorem C13_NextCharacter_wraps_at_256 :
    (255 + 1) % 257 = 256 ∧
    (UPF2CharacterQueueComponent.NextCharacter ⟨(List.range 257).map some, 255, []⟩).map
      (fun p => (p.1, p.2.ActiveCharacterIndex)) = some (some 0, 0) := by
  set_option maxRecDepth 100000 in decide

/-- C13, amended: on a roster with `0 < Count = n <= 256` and active index `a < n`,
`NextCharacter` sets the active index to `(a + 1) mod n` and `PreviousCharacter` sets it to
`(a + n - 1) mod n`; each returns the character at the new index and leaves the roster contents
unchanged. -/
theorem C13_cyclic_cursor (cs : List Nat) (a : Nat) (ev : List CharacterEvent)
    (hn : 0 < cs.length) (hcap : cs.length ≤ 256) (ha : a < cs.length) :
    (∃ q1, UPF2CharacterQueueComponent.NextCharacter ⟨cs.map some, a, ev⟩
        = some (cs[(a + 1) % cs.length]?, q1) ∧
      q1.ActiveCharacterIndex = (a + 1) % cs.length ∧ q1.Queue = cs.map some ∧
      (∃ x, cs[(a + 1) % cs.length]? = some x)) ∧
    (∃ q1, UPF2CharacterQueueComponent.PreviousCharacter ⟨cs.map some, a, ev⟩
        = some (cs[(a + cs.length - 1) % cs.length]?, q1) ∧
      q1.ActiveCharacterIndex = (a + cs.length - 1) % cs.length ∧ q1.Queue = cs.map some ∧
      (∃ x, cs[(a + cs.length - 1) % cs.length]? = some x)) := by
  refine ⟨⟨_, UPF2CharacterQueueComponent.NextCharacter_map_some cs a ev hn hcap ha, rfl, rfl,
      ?_⟩,
    ⟨_, UPF2CharacterQueueComponent.PreviousCharacter_map_some cs a ev hn hcap ha, rfl, rfl,
      ?_⟩⟩
  · exact ⟨_, List.getElem?_eq_getElem (Nat.mod_lt _ hn)⟩
  · exact ⟨_, List.getElem?_eq_getElem (Nat.mod_lt _ hn)⟩

/-- C13 amended, at the roster `[X, Y, Z] = [1, 2, 3]`: with Z active `NextCharacter` returns X,
and with X active `PreviousCharacter` returns Z. -/
theorem C13_cyclic_cursor_witness :
    (∃ q1, UPF2CharacterQueueComponent.NextCharacter ⟨[some 1, some 2, some 3], 2, []⟩
        = some (some 1, q1) ∧ q1.ActiveCharacterIndex = 0 ∧ q1.Queue = [some 1, some 2, some 3]) ∧
    (∃ q1, UPF2CharacterQueueComponent.PreviousCharacter ⟨[some 1, some 2, some 3], 0, []⟩
        = some (some 3, q1) ∧ q1.ActiveCharacterIndex = 2 ∧ q1.Queue = [some 1, some 2, some 3]) := by
  obtain ⟨⟨q1, h1, h2, h3, _⟩, _⟩ :=
    C13_cyclic_cursor [1, 2, 3] 2 [] (by decide) (by decide) (by decide)
  obtain ⟨_, ⟨q2, k1, k2, k3, _⟩⟩ :=
    C13_cyclic_cursor [1, 2, 3] 0 [] (by decide) (by decide) (by decide)
  exact ⟨⟨q1, h1, h2, h3⟩, ⟨q2, k1, k2, k3⟩⟩

/-! ## Attribute set: the damage branch and the hit-points branch -/

theorem URPGAttributeSet.PostGameplayEffectExecute_Damage (s : URPGAttributeSet)
    (Data : FGameplayEffectModCallbackData) (hattr : Data.Attribute = .Damage) :
    s.PostGameplayEffectExecute Data =
      if s.Damage > 0 then
        ⟨FMath.Clamp (s.HitPoints - s.Damage) 0 s.MaxHitPoints, s.MaxHitPoints, 0,
          s.Events ++ (if Data.TargetCharacter then
            [.HandleDamage s.Damage, .HandleHitPointsChanged (-s.Damage)] else [])⟩
      else ⟨s.HitPoints, s.MaxHitPoints, 0, s.Events⟩ := by
  unfold URPGAttributeSet.PostGameplayEffectExecute
  by_cases hd : s.Damage > 0 <;> cases htarget : Data.TargetCharacter <;> simp [hattr, hd]

theorem URPGAttributeSet.PostGameplayEffectExecute_HitPoints (s : URPGAttributeSet)
    (Data : FGameplayEffectModCallbackData) (hattr : Data.Attribute = .HitPoints) :
    s.PostGameplayEffectExecute Data =
      ⟨FMath.Clamp s.HitPoints 0 s.MaxHitPoints, s.MaxHitPoints, s.Damage,
        s.Events ++ (if Data.TargetCharacter then
          [.HandleHitPointsChanged (if Data.ModifierOp = .Additive then Data.Magnitude else 0)]
          else [])⟩ := by
  unfold URPGAttributeSet.PostGameplayEffectExecute
  cases htarget : Data.TargetCharacter <;> simp [hattr]

theorem FMath.Clamp_of_mem (X Max : ℚ) (h0 : 0 ≤ X) (h1 : X ≤ Max) : FMath.Clamp X 0 Max = X := by
  unfold FMath.Clamp
  rw [if_neg (not_lt.mpr h0)]
  split_ifs with h2
  · rfl
  · exact le_antisymm (not_lt.mp h2) h1

/-- C14, as the spec states it, fails for the damage amount 0 on a state outside the clamping
range: with `hitPoints = 30`, `maxHitPoints = 20` and 0 in the accumulator, processing the damage
leaves `hitPoints = 30`, whereas `clamp(30 - 0, 0, 20) = 20`. -/
theorem C14_zero_damage_does_not_clamp :
    (URPGAttributeSet.PostGameplayEffectExecute ⟨30, 20, 0, []⟩
      ⟨.Damage, .Additive, 0, true⟩).HitPoints = 30 ∧
    FMath.Clamp (30 - 0) 0 20 = 20 ∧
    (URPGAttributeSet.PostGameplayEffectExecute ⟨30, 20, 0, []⟩
      ⟨.Damage, .Additive, 0, true⟩).HitPoints ≠ FMath.Clamp (30 - 0) 0 20 := by
  rw [URPGAttributeSet.PostGameplayEffectExecute_Damage _ _ rfl]
  norm_num [FMath.Clamp]

/-- C14, amended: processing a damage amount `d >= 0` held in the accumulator resets the
accumulator to 0 and leaves `maxHitPoints` unchanged; for `d > 0` it sets `hitPoints` to
`clamp(hitPoints - d, 0, maxHitPoints)`, for `d = 0` it leaves `hitPoints` as they are; so
`hitPoints` is `clamp(hitPoints - d, 0, maxHitPoints)` for every `d >= 0` when
`0 <= hitPoints <= maxHitPoints` held before. -/
theorem C14_damage_branch_state (s : URPGAttributeSet) (Data : FGameplayEffectModCallbackData)
    (hattr : Data.Attribute = .Damage) (hd : 0 ≤ s.Damage) :
    (s.PostGameplayEffectExecute Data).Damage = 0 ∧
    (s.PostGameplayEffectExecute Data).MaxHitPoints = s.MaxHitPoints ∧
    (0 < s.Damage → (s.PostGameplayEffectExecute Data).HitPoints =
      FMath.Clamp (s.HitPoints - s.Damage) 0 s.MaxHitPoints) ∧
    (s.Damage = 0 → (s.PostGameplayEffectExecute Data).HitPoints = s.HitPoints) ∧
    (s.Clamped → (s.PostGameplayEffectExecute Data).HitPoints =
      FMath.Clamp (s.HitPoints - s.Damage) 0 s.MaxHitPoints) := by
  rw [URPGAttributeSet.PostGameplayEffectExecute_Damage s Data hattr]
  rcases lt_or_eq_of_le hd with hpos | hzero
  · rw [if_pos hpos]
    exact ⟨rfl, rfl, fun _ => rfl, fun h => absurd h (ne_of_gt hpos), fun _ => rfl⟩
  · have hnot : ¬ s.Damage > 0 := by rw [← hzero]; exact lt_irrefl _
    rw [if_neg hnot]
    refine ⟨rfl, rfl, fun h => absurd h hnot, fun _ => rfl, ?_⟩
    intro hs
    show s.HitPoints = FMath.Clamp (s.HitPoints - s.Damage) 0 s.MaxHitPoints
    rw [← hzero, sub_zero, FMath.Clamp_of_mem _ _ hs.1 hs.2]

/-- C14 amended, at `hitPoints = maxHitPoints = 20` with 25 in the accumulator. -/
theorem C14_damage_branch_state_witness :
    (URPGAttributeSet.PostGameplayEffectExecute ⟨20, 20, 25, []⟩
      ⟨.Damage, .Additive, 25, true⟩).Damage = 0 ∧
    (URPGAttributeSet.PostGameplayEffectExecute ⟨20, 20, 25, []⟩
      ⟨.Damage, .Additive, 25, true⟩).MaxHitPoints = 20 ∧
    (URPGAttributeSet.PostGameplayEffectExecute ⟨20, 20, 25, []⟩
      ⟨.Damage, .Additive, 25, true⟩).HitPoints = FMath.Clamp (20 - 25) 0 20 :=
  have h := C14_damage_branch_state ⟨20, 20, 25, []⟩ ⟨.Damage, .Additive, 25, true⟩ rfl
    (by norm_num)
  ⟨h.1, h.2.1, h.2.2.1 (by norm_num)⟩

/-- C15, as the spec states it, fails for the damage amount 0: with a resolved target character
and 0 in the accumulator the damage path calls neither `HandleHitPointsChanged` nor
`HandleDamage`. -/
theorem C15_zero_damage_emits_nothing :
    (URPGAttributeSet.PostGameplayEffectExecute ⟨20, 20, 0, []⟩
      ⟨.Damage, .Additive, 0, true⟩).Events = [] ∧
    AttributeEvent.HandleHitPointsChanged (-0) ∉
      (URPGAttributeSet.PostGameplayEffectExecute ⟨20, 20, 0, []⟩
        ⟨.Damage, .Additive, 0, true⟩).Events := by
  rw [URPGAttributeSet.PostGameplayEffectExecute_Damage _ _ rfl]
  norm_num

/-- C15, amended: with a resolved target character and a damage amount `d` in the accumulator,
the damage path makes, for `d > 0`, exactly the calls `HandleDamage d` and then
`HandleHitPointsChanged (-d)`, and for `d = 0` no call at all. -/
theorem C15_damage_branch_notifications (s : URPGAttributeSet)
    (Data : FGameplayEffectModCallbackData) (hattr : Data.Attribute = .Damage)
    (htarget : Data.TargetCharacter = true) :
    (0 < s.Damage → (s.PostGameplayEffectExecute Data).Events =
      s.Events ++ [.HandleDamage s.Damage, .HandleHitPointsChanged (-s.Damage)]) ∧
    (s.Damage = 0 → (s.PostGameplayEffectExecute Data).Events = s.Events) := by
  rw [URPGAttributeSet.PostGameplayEffectExecute_Damage s Data hattr]
  constructor
  · intro hpos
    simp [hpos, htarget]
  · intro hzero
    simp [hzero]

/-- C15 amended, at damage 25 on `hitPoints = maxHitPoints = 20`. -/
theorem C15_damage_branch_notifications_witness :
    (URPGAttributeSet.PostGameplayEffectExecute ⟨20, 20, 25, []⟩
      ⟨.Damage, .Additive, 25, true⟩).Events =
      [] ++ [.HandleDamage 25, .HandleHitPointsChanged (-25)] :=
  (C15_damage_branch_notifications ⟨20, 20, 25, []⟩ ⟨.Damage, .Additive, 25, true⟩ rfl rfl).1
    (by norm_num)

/-- C16, as the spec states it, fails in two ways. Without a resolved target character the
damage 25 on `hitPoints = maxHitPoints = 20` sets `hitPoints` to 0 and makes no
`HandleHitPointsChanged` call at all. And a damage 0 that exceeds negative hit points is not
processed: from `hitPoints = 50`, `maxHitPoints = 100` a change of the maximum to `-10` leaves
`hitPoints = -5`, and the damage 0 then leaves `hitPoints = -5`, not 0, and makes no call. -/
theorem C16_no_target_or_unprocessed_damage :
    (URPGAttributeSet.PostGameplayEffectExecute ⟨20, 20, 25, []⟩
      ⟨.Damage, .Additive, 25, false⟩).HitPoints = 0 ∧
    (URPGAttributeSet.PostGameplayEffectExecute ⟨20, 20, 25, []⟩
      ⟨.Damage, .Additive, 25, false⟩).Events = [] ∧
    URPGAttributeSet.SetMax ⟨50, 100, 0, []⟩ true (-10) = ⟨-5, -10, 0, []⟩ ∧
    (URPGAttributeSet.PostGameplayEffectExecute ⟨-5, -10, 0, []⟩
      ⟨.Damage, .Additive, 0, true⟩).HitPoints = -5 ∧
    (URPGAttributeSet.PostGameplayEffectExecute ⟨-5, -10, 0, []⟩
      ⟨.Damage, .Additive, 0, true⟩).HitPoints ≠ 0 ∧
    (URPGAttributeSet.PostGameplayEffectExecute ⟨-5, -10, 0, []⟩
      ⟨.Damage, .Additive, 0, true⟩).Events = [] := by
  have hfar : FMath.IsNearlyEqual 100 (-10) = false := by
    unfold FMath.IsNearlyEqual FMath.SMALL_NUMBER
    rw [decide_eq_false_iff_not, abs_le]
    norm_num
  rw [URPGAttributeSet.PostGameplayEffectExecute_Damage _ _ rfl,
    URPGAttributeSet.PostGameplayEffectExecute_Damage _ _ rfl]
  simp only [URPGAttributeSet.SetMax, URPGAttributeSet.PreAttributeChange,
    URPGAttributeSet.AdjustAttributeForMaxChange, hfar]
  norm_num [FMath.Clamp]

/-- C16, amended: when a damage amount `d > 0` exceeds the current `hitPoints`, `hitPoints`
becomes 0; when the target character is resolved the damage path calls `HandleDamage d` and then
`HandleHitPointsChanged` with the raw `-d`, which differs from the change in hit points after the
clamp; when the target character is not resolved it makes no call. -/
theorem C16_overkill_reports_raw_delta (s : URPGAttributeSet)
    (Data : FGameplayEffectModCallbackData) (hattr : Data.Attribute = .Damage)
    (hpos : 0 < s.Damage) (hexceeds : s.HitPoints < s.Damage) :
    (s.PostGameplayEffectExecute Data).HitPoints = 0 ∧
    (Data.TargetCharacter = true → (s.PostGameplayEffectExecute Data).Events =
      s.Events ++ [.HandleDamage s.Damage, .HandleHitPointsChanged (-s.Damage)]) ∧
    (Data.TargetCharacter = false → (s.PostGameplayEffectExecute Data).Events = s.Events) ∧
    -s.Damage ≠ (s.PostGameplayEffectExecute Data).HitPoints - s.HitPoints := by
  rw [URPGAttributeSet.PostGameplayEffectExecute_Damage s Data hattr]
  have hneg : s.HitPoints - s.Damage < 0 := sub_neg.mpr hexceeds
  have hclamp : FMath.Clamp (s.HitPoints - s.Damage) 0 s.MaxHitPoints = 0 := by
    unfold FMath.Clamp
    rw [if_pos hneg]
  rw [if_pos hpos, hclamp]
  refine ⟨rfl, ?_, ?_, ?_⟩
  · intro htarget
    simp [htarget]
  · intro htarget
    simp [htarget]
  · intro h
    have h2 : s.Damage = s.HitPoints := by
      have h3 : -s.Damage = 0 - s.HitPoints := h
      linarith
    exact absurd h2 (ne_of_gt hexceeds)

/-- C16 amended, at `hitPoints = maxHitPoints = 20` with damage 25 on a resolved target
character: `hitPoints` becomes 0 and the notification carries -25, not -20. -/
theorem C16_overkill_reports_raw_delta_witness :
    (URPGAttributeSet.PostGameplayEffectExecute ⟨20, 20, 25, []⟩
      ⟨.Damage, .Additive, 25, true⟩).HitPoints = 0 ∧
    (URPGAttributeSet.PostGameplayEffectExecute ⟨20, 20, 25, []⟩
      ⟨.Damage, .Additive, 25, true⟩).Events =
      [] ++ [.HandleDamage 25, .HandleHitPointsChanged (-25)] ∧
    (-25 : ℚ) ≠ (URPGAttributeSet.PostGameplayEffectExecute ⟨20, 20, 25, []⟩
      ⟨.Damage, .Additive, 25, true⟩).HitPoints - 20 :=
  have h := C16_overkill_reports_raw_delta ⟨20, 20, 25, []⟩ ⟨.Damage, .Additive, 25, true⟩ rfl
    (by norm_num) (by norm_num)
  ⟨h.1, h.2.1 rfl, h.2.2.2⟩

/-- C17, as the spec states it, fails in two ways: without a resolved target character the
handling of a hit-points change makes no `HandleHitPointsChanged` call; and with a negative
maximum (`hitPoints = 5`, `maxHitPoints = -3`) the first handling leaves `hitPoints = -3` and a
second handling changes them again, to 0. -/
theorem C17_no_target_no_notification_and_negative_max :
    (URPGAttributeSet.PostGameplayEffectExecute ⟨10, 20, 0, []⟩
      ⟨.HitPoints, .Additive, 5, false⟩).Events = [] ∧
    (URPGAttributeSet.PostGameplayEffectExecute ⟨5, -3, 0, []⟩
      ⟨.HitPoints, .Additive, 5, true⟩).HitPoints = -3 ∧
    (URPGAttributeSet.PostGameplayEffectExecute
      (URPGAttributeSet.PostGameplayEffectExecute ⟨5, -3, 0, []⟩ ⟨.HitPoints, .Additive, 5, true⟩)
      ⟨.HitPoints, .Additive, 5, true⟩).HitPoints = 0 := by
  simp only [URPGAttributeSet.PostGameplayEffectExecute_HitPoints _
      ⟨.HitPoints, .Additive, 5, false⟩ rfl,
    URPGAttributeSet.PostGameplayEffectExecute_HitPoints _ ⟨.HitPoints, .Additive, 5, true⟩ rfl]
  norm_num [FMath.Clamp]

/-- C17, amended: handling a change of the hit-points attribute sets `hitPoints` to
`clamp(hitPoints, 0, maxHitPoints)` and leaves `maxHitPoints` and the accumulator unchanged; when
the target character is resolved it calls `HandleHitPointsChanged delta` once, where `delta` is
the magnitude for an additive modifier and 0 for any other operation, and otherwise it makes no
call; when `maxHitPoints >= 0`, handling it a second time leaves `hitPoints`, `maxHitPoints` and
the accumulator as the first handling left them. -/
theorem C17_hit_points_branch (s : URPGAttributeSet) (Data : FGameplayEffectModCallbackData)
    (hattr : Data.Attribute = .HitPoints) :
    (s.PostGameplayEffectExecute Data).HitPoints = FMath.Clamp s.HitPoints 0 s.MaxHitPoints ∧
    (s.PostGameplayEffectExecute Data).MaxHitPoints = s.MaxHitPoints ∧
    (s.PostGameplayEffectExecute Data).Damage = s.Damage ∧
    (Data.TargetCharacter = true → (s.PostGameplayEffectExecute Data).Events = s.Events ++
      [.HandleHitPointsChanged (if Data.ModifierOp = .Additive then Data.Magnitude else 0)]) ∧
    (Data.TargetCharacter = false → (s.PostGameplayEffectExecute Data).Events = s.Events) ∧
    (0 ≤ s.MaxHitPoints →
      ((s.PostGameplayEffectExecute Data).PostGameplayEffectExecute Data).HitPoints
        = (s.PostGameplayEffectExecute Data).HitPoints ∧
      ((s.PostGameplayEffectExecute Data).PostGameplayEffectExecute Data).MaxHitPoints
        = (s.PostGameplayEffectExecute Data).MaxHitPoints ∧
      ((s.PostGameplayEffectExecute Data).PostGameplayEffectExecute Data).Damage
        = (s.PostGameplayEffectExecute Data).Damage) := by
  simp only [URPGAttributeSet.PostGameplayEffectExecute_HitPoints _ Data hattr]
  refine ⟨trivial, trivial, trivial, ?_, ?_, ?_⟩
  · intro h
    simp [h]
  · intro h
    simp [h]
  · intro hmax
    obtain ⟨h0, h1⟩ := FMath.Clamp_bounds s.HitPoints s.MaxHitPoints hmax
    exact ⟨FMath.Clamp_of_mem _ _ h0 h1, trivial, trivial⟩

/-- C17 amended, at `hitPoints = 30`, `maxHitPoints = 20` after a heal of magnitude 10 on a
resolved target. -/
theorem C17_hit_points_branch_witness :
    (URPGAttributeSet.PostGameplayEffectExecute ⟨30, 20, 0, []⟩
      ⟨.HitPoints, .Additive, 10, true⟩).HitPoints = FMath.Clamp 30 0 20 ∧
    (URPGAttributeSet.PostGameplayEffectExecute ⟨30, 20, 0, []⟩
      ⟨.HitPoints, .Additive, 10, true⟩).Events = [] ++ [.HandleHitPointsChanged 10] :=
  have h := C17_hit_points_branch ⟨30, 20, 0, []⟩ ⟨.HitPoints, .Additive, 10, true⟩ rfl
  ⟨h.1, h.2.2.2.1 rfl⟩

/-! ## Replication: `OnRep_Queue` -/

theorem UPF2CommandQueueComponent.CollectMissing_eq (Source Other : List ActorPtr) :
    UPF2CommandQueueComponent.CollectMissing Source Other =
      (Source.filterMap id).filter (fun c => decide (some c ∉ Other)) := by
  have hgen : ∀ (l : List ActorPtr) (acc : List Nat),
      l.foldl
        (fun Collected Command =>
          match Command with
          | none => Collected
          | some c =>
            if !TArray.Contains Other (some c) then TArray.Add Collected c else Collected)
        acc = acc ++ (l.filterMap id).filter (fun c => decide (some c ∉ Other)) := by
    intro l
    induction l with
    | nil => intro acc; simp
    | cons x rest ih =>
      intro acc
      rw [List.foldl_cons, ih]
      cases x with
      | none => simp
      | some c =>
        by_cases hc : some c ∈ Other
        · simp [TArray.Contains, TArray.Add, hc]
        · simp [TArray.Contains, TArray.Add, hc]
  unfold UPF2CommandQueueComponent.CollectMissing
  rw [hgen]
  simp

theorem UPF2CommandQueueComponent.foldl_Removed (cs : List Nat) :
    ∀ q : UPF2CommandQueueComponent,
      cs.foldl (fun s c => s.Native_OnCommandRemoved (some c)) q =
        ⟨q.Queue, q.Events ++ cs.map (fun c => CommandEvent.CommandRemoved (some c)),
          q.Attempts⟩ := by
  induction cs with
  | nil => intro q; simp
  | cons c rest ih =>
    intro q
    rw [List.foldl_cons, ih]
    simp [UPF2CommandQueueComponent.Native_OnCommandRemoved]

theorem UPF2CommandQueueComponent.foldl_Added (cs : List Nat) :
    ∀ q : UPF2CommandQueueComponent,
      cs.foldl (fun s c => s.Native_OnCommandAdded (some c)) q =
        ⟨q.Queue, q.Events ++ cs.map (fun c => CommandEvent.CommandAdded (some c)),
          q.Attempts⟩ := by
  induction cs with
  | nil => intro q; simp
  | cons c rest ih =>
    intro q
    rw [List.foldl_cons, ih]
    simp [UPF2CommandQueueComponent.Native_OnCommandAdded]

theorem UPF2CommandQueueComponent.OnRep_Queue_eq (q : UPF2CommandQueueComponent)
    (OldQueue : List ActorPtr) :
    q.OnRep_Queue OldQueue =
      ⟨q.Queue,
        q.Events ++
          (((OldQueue.filterMap id).filter (fun c => decide (some c ∉ q.Queue))).map
            (fun c => CommandEvent.CommandRemoved (some c)) ++
          (((q.Queue.filterMap id).filter (fun c => decide (some c ∉ OldQueue))).map
            (fun c => CommandEvent.CommandAdded (some c)) ++
          [.CommandsChanged (q.Queue.filterMap id)])),
        q.Attempts⟩ := by
  unfold UPF2CommandQueueComponent.OnRep_Queue
  simp only [UPF2CommandQueueComponent.CollectMissing_eq,
    UPF2CommandQueueComponent.foldl_Removed, UPF2CommandQueueComponent.foldl_Added,
    UPF2CommandQueueComponent.Native_OnCommandsChanged, List.append_assoc]

/-- C18: `OnRep_Queue` with the old snapshot `OldQueue` leaves the queue as it is and broadcasts
exactly: one `CommandRemoved` for each non-null entry of the old snapshot that is not in the new
queue, in the order of the old snapshot; then one `CommandAdded` for each non-null entry of the
new queue that is not in the old snapshot, in the order of the new queue; then one
`CommandsChanged` with the non-null entries of the new queue. No broadcast carries a null
command. -/
theorem C18_OnRep_Queue_events (q : UPF2CommandQueueComponent) (OldQueue : List ActorPtr) :
    (q.OnRep_Queue OldQueue).Queue = q.Queue ∧
    (q.OnRep_Queue OldQueue).Events =
      q.Events ++
        (((OldQueue.filterMap id).filter (fun c => decide (some c ∉ q.Queue))).map
          (fun c => CommandEvent.CommandRemoved (some c)) ++
        (((q.Queue.filterMap id).filter (fun c => decide (some c ∉ OldQueue))).map
          (fun c => CommandEvent.CommandAdded (some c)) ++
        [.CommandsChanged (q.Queue.filterMap id)])) ∧
    (∀ c, c ∈ (OldQueue.filterMap id).filter (fun c => decide (some c ∉ q.Queue)) ↔
      (some c ∈ OldQueue ∧ some c ∉ q.Queue)) ∧
    (∀ c, c ∈ (q.Queue.filterMap id).filter (fun c => decide (some c ∉ OldQueue)) ↔
      (some c ∈ q.Queue ∧ some c ∉ OldQueue)) := by
  rw [UPF2CommandQueueComponent.OnRep_Queue_eq]
  refine ⟨rfl, rfl, ?_, ?_⟩
  · intro c
    simp [List.mem_filter, List.mem_filterMap]
  · intro c
    simp [List.mem_filter, List.mem_filterMap]

/-! ## Replication: order of the broadcasts -/

theorem UPF2CharacterQueueComponent.Native_OnCharacterRemoved_events
    (q q1 : UPF2CharacterQueueComponent) (c : ActorPtr) (i : Nat)
    (h : q.Native_OnCharacterRemoved c i = some q1) :
    q1.Queue = q.Queue ∧
    ∃ es, q1.Events = q.Events ++ es ++ [.CharacterRemoved c] ∧
      ∀ e ∈ es, e.isAdded = false ∧ e.isRemoved = false := by
  unfold UPF2CharacterQueueComponent.Native_OnCharacterRemoved at h
  by_cases hi : q.ActiveCharacterIndex ≥ i
  · rw [if_pos hi] at h
    by_cases h0 : q.ActiveCharacterIndex ≠ 0
    · simp only [h0, ne_eq, not_false_eq_true, if_true] at h
      split at h
      · exact absurd h (by simp)
      · rename_i active _
        simp only [Option.some.injEq] at h
        subst h
        refine ⟨rfl, [.ActiveCharacterChanged active], ?_, ?_⟩
        · simp [UPF2CharacterQueueComponent.Native_OnActiveCharacterChanged]
        · intro e he
          simp only [List.mem_singleton] at he
          subst he
          exact ⟨rfl, rfl⟩
    · simp only [h0, if_false] at h
      split at h
      · exact absurd h (by simp)
      · rename_i active _
        simp only [Option.some.injEq] at h
        subst h
        refine ⟨rfl, [.ActiveCharacterChanged active], ?_, ?_⟩
        · simp [UPF2CharacterQueueComponent.Native_OnActiveCharacterChanged]
        · intro e he
          simp only [List.mem_singleton] at he
          subst he
          exact ⟨rfl, rfl⟩
  · rw [if_neg hi] at h
    simp only [Option.some.injEq] at h
    subst h
    exact ⟨rfl, [], by simp, by simp⟩

theorem UPF2CharacterQueueComponent.OnRepRemovedLoop_events (OldCharacters : List ActorPtr)
    (removed : List Nat) :
    ∀ q q1 : UPF2CharacterQueueComponent,
      UPF2CharacterQueueComponent.OnRepRemovedLoop q OldCharacters removed = some q1 →
      q1.Queue = q.Queue ∧
      ∃ rs, q1.Events = q.Events ++ rs ∧ (∀ e ∈ rs, e.isAdded = false) ∧
        rs.filter CharacterEvent.isRemoved
          = removed.map (fun c => CharacterEvent.CharacterRemoved (some c)) := by
  induction removed with
  | nil =>
    intro q q1 h
    simp only [UPF2CharacterQueueComponent.OnRepRemovedLoop, Option.some.injEq] at h
    subst h
    exact ⟨rfl, [], by simp, by simp, by simp⟩
  | cons c rest ih =>
    intro q q1 h
    simp only [UPF2CharacterQueueComponent.OnRepRemovedLoop] at h
    split at h
    · cases hstep : q.Native_OnCharacterRemoved (some c)
          (toUInt8 (TArray.Find OldCharacters (some c))) with
      | none => simp [hstep] at h
      | some q2 =>
        rw [hstep, Option.some_bind] at h
        obtain ⟨hq2, es, hes, hkind⟩ :=
          UPF2CharacterQueueComponent.Native_OnCharacterRemoved_events q q2 _ _ hstep
        obtain ⟨hq1, rs, hrs, hnoadd, hfilter⟩ := ih q2 q1 h
        refine ⟨hq1.trans hq2, es ++ [.CharacterRemoved (some c)] ++ rs, ?_, ?_, ?_⟩
        · rw [hrs, hes]
          simp
        · intro e he
          simp only [List.mem_append, List.mem_singleton] at he
          rcases he with (he | he) | he
          · exact (hkind e he).1
          · subst he; rfl
          · exact hnoadd e he
        · have hes0 : es.filter CharacterEvent.isRemoved = [] := by
            rw [List.filter_eq_nil_iff]
            intro e he
            simp [(hkind e he).2]
          simp [List.filter_append, hes0, hfilter, CharacterEvent.isRemoved]
    · exact absurd h (by simp)

theorem UPF2CharacterQueueComponent.foldl_CharacterAdded (cs : List Nat) :
    ∀ q : UPF2CharacterQueueComponent,
      cs.foldl (fun s c => s.Native_OnCharacterAdded (some c)) q =
        ⟨q.Queue, q.ActiveCharacterIndex,
          q.Events ++ cs.map (fun c => CharacterEvent.CharacterAdded (some c))⟩ := by
  induction cs with
  | nil => intro q; simp
  | cons c rest ih =>
    intro q
    rw [List.foldl_cons, ih]
    simp [UPF2CharacterQueueComponent.Native_OnCharacterAdded]

/-- C19, as the spec states it, fails: in a pass that removes command 1 and adds command 2 (old
snapshot `[1]`, new queue `[2]`) the `Removed` broadcast comes first and the `Added` broadcast
after it, for the command queue and for the roster alike. -/
theorem C19_removed_is_broadcast_before_added :
    (UPF2CommandQueueComponent.OnRep_Queue ⟨[some 2], [], []⟩ [some 1]).Events =
      [.CommandRemoved (some 1), .CommandAdded (some 2), .CommandsChanged [2]] ∧
    (UPF2CharacterQueueComponent.OnRep_CharacterQueue PF2ArrayUtilities.CaptureDeltasWithCast
        ⟨[some 2], 0, []⟩ [some 1]).map (fun r => r.Events) =
      some [.ActiveCharacterChanged (some 2), .CharacterRemoved (some 1),
        .CharacterAdded (some 2), .CharactersChanged [2]] := by
  decide

/-- C19, amended: in a reconciliation pass in which at least one item was added and at least one
was removed, the broadcasts of the pass are a first block that holds every `Removed` broadcast
and no `Added` one, then a block of `Added` broadcasts only, then the aggregate `Changed`
broadcast: every `Removed` is emitted before every `Added`, and `Changed` is emitted last. This
holds for `OnRep_Queue` of the command queue and for `OnRep_CharacterQueue` of the roster,
whatever the delta capture returns. -/
theorem C19_removed_then_added_then_changed
    (q : UPF2CommandQueueComponent) (OldQueue : List ActorPtr)
    (r r1 : UPF2CharacterQueueComponent)
    (capture : List ActorPtr → List ActorPtr → List Nat × List Nat)
    (OldCharacters : List ActorPtr)
    (hcr : ∃ c, some c ∈ OldQueue ∧ some c ∉ q.Queue)
    (hca : ∃ c, some c ∈ q.Queue ∧ some c ∉ OldQueue)
    (hrr : (capture OldCharacters r.Queue).1 ≠ [])
    (hra : (capture OldCharacters r.Queue).2 ≠ [])
    (hrun : r.OnRep_CharacterQueue capture OldCharacters = some r1) :
    (∃ removed added,
      (q.OnRep_Queue OldQueue).Events =
        q.Events ++ removed ++ added ++ [.CommandsChanged (q.Queue.filterMap id)] ∧
      removed ≠ [] ∧ (∀ e ∈ removed, e.isRemoved = true) ∧
      added ≠ [] ∧ (∀ e ∈ added, e.isAdded = true)) ∧
    (∃ removed added,
      r1.Events = r.Events ++ removed ++ added ++ [.CharactersChanged (r.Queue.filterMap id)] ∧
      (∃ e ∈ removed, e.isRemoved = true) ∧ (∀ e ∈ removed, e.isAdded = false) ∧
      added ≠ [] ∧ (∀ e ∈ added, e.isAdded = true)) := by
  constructor
  · obtain ⟨c, hc1, hc2⟩ := hcr
    obtain ⟨d, hd1, hd2⟩ := hca
    refine ⟨((OldQueue.filterMap id).filter (fun c => decide (some c ∉ q.Queue))).map
        (fun c => CommandEvent.CommandRemoved (some c)),
      ((q.Queue.filterMap id).filter (fun c => decide (some c ∉ OldQueue))).map
        (fun c => CommandEvent.CommandAdded (some c)), ?_, ?_, ?_, ?_, ?_⟩
    · rw [UPF2CommandQueueComponent.OnRep_Queue_eq]
      simp
    · intro hnil
      have hmem : c ∈ (OldQueue.filterMap id).filter (fun c => decide (some c ∉ q.Queue)) := by
        simp [List.mem_filter, List.mem_filterMap, hc1, hc2]
      rw [List.map_eq_nil_iff] at hnil
      rw [hnil] at hmem
      simp at hmem
    · intro e he
      obtain ⟨x, _, rfl⟩ := List.mem_map.mp he
      rfl
    · intro hnil
      have hmem : d ∈ (q.Queue.filterMap id).filter (fun c => decide (some c ∉ OldQueue)) := by
        simp [List.mem_filter, List.mem_filterMap, hd1, hd2]
      rw [List.map_eq_nil_iff] at hnil
      rw [hnil] at hmem
      simp at hmem
    · intro e he
      obtain ⟨x, _, rfl⟩ := List.mem_map.mp he
      rfl
  · unfold UPF2CharacterQueueComponent.OnRep_CharacterQueue at hrun
    cases hloop : UPF2CharacterQueueComponent.OnRepRemovedLoop r OldCharacters
        (capture OldCharacters r.Queue).1 with
    | none => simp [hloop] at hrun
    | some r2 =>
      obtain ⟨hqueue, rs, hrs, hnoadd, hfilter⟩ :=
        UPF2CharacterQueueComponent.OnRepRemovedLoop_events OldCharacters _ r r2 hloop
      have hnum : TArray.Num (capture OldCharacters r.Queue).1 ≠ 0 := by
        simpa [TArray.Num] using hrr
      simp only [hloop, Option.map_some', Option.some.injEq, hnum, ne_eq, not_false_eq_true,
        true_or, if_true, UPF2CharacterQueueComponent.foldl_CharacterAdded,
        UPF2CharacterQueueComponent.Native_OnCharactersChanged] at hrun
      subst hrun
      refine ⟨rs, (capture OldCharacters r.Queue).2.map
        (fun c => CharacterEvent.CharacterAdded (some c)), ?_, ?_, hnoadd, ?_, ?_⟩
      · simp [hrs, hqueue]
      · obtain ⟨x, rest, hx⟩ := List.exists_cons_of_ne_nil hrr
        have hmem : CharacterEvent.CharacterRemoved (some x)
            ∈ rs.filter CharacterEvent.isRemoved := by
          rw [hfilter, hx]
          simp
        exact ⟨_, (List.mem_filter.mp hmem).1, rfl⟩
      · simpa using hra
      · intro e he
        obtain ⟨x, _, rfl⟩ := List.mem_map.mp he
        rfl

/-- C19 amended, at the old snapshot `[1]` and the new contents `[2]`, for the command queue and
for the roster. -/
theorem C19_removed_then_added_then_changed_witness :
    (∃ removed added,
      (UPF2CommandQueueComponent.OnRep_Queue ⟨[some 2], [], []⟩ [some 1]).Events =
        [] ++ removed ++ added ++ [.CommandsChanged ([some 2].filterMap id)] ∧
      removed ≠ [] ∧ (∀ e ∈ removed, e.isRemoved = true) ∧
      added ≠ [] ∧ (∀ e ∈ added, e.isAdded = true)) ∧
    (∃ removed added,
      [CharacterEvent.ActiveCharacterChanged (some 2), .CharacterRemoved (some 1),
          .CharacterAdded (some 2), .CharactersChanged [2]] =
        [] ++ removed ++ added ++ [.CharactersChanged ([some 2].filterMap id)] ∧
      (∃ e ∈ removed, e.isRemoved = true) ∧ (∀ e ∈ removed, e.isAdded = false) ∧
      added ≠ [] ∧ (∀ e ∈ added, e.isAdded = true)) :=
  C19_removed_then_added_then_changed ⟨[some 2], [], []⟩ [some 1]
    ⟨[some 2], 0, []⟩
    ⟨[some 2], 0, [.ActiveCharacterChanged (some 2), .CharacterRemoved (some 1),
      .CharacterAdded (some 2), .CharactersChanged [2]]⟩
    PF2ArrayUtilities.CaptureDeltasWithCast [some 1]
    ⟨1, by decide, by decide⟩ ⟨2, by decide, by decide⟩ (by decide) (by decide) (by decide)

/-! ## Character queue: `Clear` -/

theorem UPF2CharacterQueueComponent.ClearLoop_map_some (cs : List Nat) :
    ∀ (a i : Nat) (ev : List CharacterEvent), a < i + cs.length → i + cs.length ≤ 256 →
      ∃ es, UPF2CharacterQueueComponent.ClearLoop ⟨[], a, ev⟩ (cs.map some) i =
          some ⟨[], if i ≤ a then a - ((a - i) / 2 + 1) else a, ev ++ es⟩ ∧
        es.filter CharacterEvent.isRemoved
          = cs.map (fun c => CharacterEvent.CharacterRemoved (some c)) ∧
        ∀ e ∈ es, e.isRemoved = true ∨ e = .ActiveCharacterChanged none := by
  induction cs with
  | nil =>
    intro a i ev ha _
    have hia : ¬ i ≤ a := by simp at ha; omega
    exact ⟨[], by simp [UPF2CharacterQueueComponent.ClearLoop, hia], by simp, by simp⟩
  | cons c rest ih =>
    intro a i ev ha hcap
    simp only [List.length_cons] at ha hcap
    have hmod : i % 256 = i := Nat.mod_eq_of_lt (by omega)
    have hstep := UPF2CharacterQueueComponent.Native_OnCharacterRemoved_map_some [] a i (some c)
      ev (Or.inr rfl)
    simp only [List.map_nil, List.getElem?_nil] at hstep
    obtain ⟨es, hrun, hfilter, hkind⟩ := ih (if i ≤ a then a - 1 else a) (i + 1)
      (ev ++ (if i ≤ a then [CharacterEvent.ActiveCharacterChanged none] else []) ++
        [.CharacterRemoved (some c)])
      (by split_ifs <;> omega) (by omega)
    refine ⟨(if i ≤ a then [CharacterEvent.ActiveCharacterChanged none] else []) ++
      [.CharacterRemoved (some c)] ++ es, ?_, ?_, ?_⟩
    · simp only [List.map_cons, UPF2CharacterQueueComponent.ClearLoop, hmod, hstep,
        Option.some_bind, hrun, Option.some.injEq]
      have hindex : (if i + 1 ≤ (if i ≤ a then a - 1 else a) then
            (if i ≤ a then a - 1 else a) - (((if i ≤ a then a - 1 else a) - (i + 1)) / 2 + 1)
          else (if i ≤ a then a - 1 else a))
          = if i ≤ a then a - ((a - i) / 2 + 1) else a := by
        split_ifs <;> omega
      rw [hindex]
      simp
    · by_cases hia : i ≤ a
      · simp [hia, List.filter_cons, CharacterEvent.isRemoved, hfilter]
      · simp [hia, List.filter_cons, CharacterEvent.isRemoved, hfilter]
    · intro e he
      simp only [List.mem_append, List.mem_singleton] at he
      rcases he with (he | he) | he
      · right
        by_cases hia : i ≤ a
        · simpa [hia] using he
        · simp [hia] at he
      · left
        subst he
        rfl
      · exact hkind e he

/-- C20, as the spec states it, fails: `Clear` on the roster `[1, 2]` with active index 1 leaves
the active index at 0, not 1, and broadcasts `ActiveCharacterChanged` with no character before
the first `CharacterRemoved`. On a roster of 257 characters with active index 255 it leaves the
active index at 126. -/
theorem C20_Clear_moves_cursor :
    (UPF2CharacterQueueComponent.Clear ⟨[some 1, some 2], 1, []⟩) =
      some ⟨[], 0, [.ActiveCharacterChanged none, .CharacterRemoved (some 1),
        .CharacterRemoved (some 2), .CharactersChanged []]⟩ ∧
    (UPF2CharacterQueueComponent.Clear ⟨(List.range 257).map some, 255, []⟩).map
      (fun q => (q.Queue, q.ActiveCharacterIndex)) = some ([], 126) := by
  set_option maxRecDepth 100000 in decide

/-- C20, amended: on a roster of `n <= 256` characters with active index `a < n`, `Clear` leaves
the roster empty and broadcasts one `CharacterRemoved` per former entry, in the original order,
interleaved only with `ActiveCharacterChanged` broadcasts that carry no character, and then one
`CharactersChanged` with no entries; it moves the active index to `a - (a / 2 + 1)` (floored at
0), which is `a` only for `a = 0`. -/
theorem C20_Clear_contract (cs : List Nat) (a : Nat) (ev : List CharacterEvent)
    (ha : a < cs.length) (hcap : cs.length ≤ 256) :
    ∃ q1 es, UPF2CharacterQueueComponent.Clear ⟨cs.map some, a, ev⟩ = some q1 ∧
      q1.Queue = [] ∧
      q1.Events = ev ++ es ++ [.CharactersChanged []] ∧
      es.filter CharacterEvent.isRemoved
        = cs.map (fun c => CharacterEvent.CharacterRemoved (some c)) ∧
      (∀ e ∈ es, e.isRemoved = true ∨ e = .ActiveCharacterChanged none) ∧
      q1.ActiveCharacterIndex = a - (a / 2 + 1) ∧
      (q1.ActiveCharacterIndex = a ↔ a = 0) := by
  obtain ⟨es, hrun, hfilter, hkind⟩ :=
    UPF2CharacterQueueComponent.ClearLoop_map_some cs a 0 ev (by omega) (by omega)
  simp only [Nat.zero_le, if_true, Nat.sub_zero] at hrun
  refine ⟨⟨[], a - (a / 2 + 1), ev ++ es ++ [.CharactersChanged []]⟩, es, ?_, rfl, rfl, hfilter,
    hkind, rfl, ?_⟩
  · simp [UPF2CharacterQueueComponent.Clear, TArray.Empty, hrun,
      UPF2CharacterQueueComponent.Native_OnCharactersChanged]
  · show a - (a / 2 + 1) = a ↔ a = 0
    omega

/-- C20 amended, at the roster `[1, 2, 3, 4]` with active index 3: the active index ends at 1. -/
theorem C20_Clear_contract_witness :
    ∃ q1 es, UPF2CharacterQueueComponent.Clear ⟨[some 1, some 2, some 3, some 4], 3, []⟩
        = some q1 ∧
      q1.Queue = [] ∧
      q1.Events = [] ++ es ++ [.CharactersChanged []] ∧
      es.filter CharacterEvent.isRemoved
        = [.CharacterRemoved (some 1), .CharacterRemoved (some 2), .CharacterRemoved (some 3),
            .CharacterRemoved (some 4)] ∧
      (∀ e ∈ es, e.isRemoved = true ∨ e = .ActiveCharacterChanged none) ∧
      q1.ActiveCharacterIndex = 3 - (3 / 2 + 1) ∧
      (q1.ActiveCharacterIndex = 3 ↔ 3 = 0) :=
  C20_Clear_contract [1, 2, 3, 4] 3 [] (by decide) (by decide)

/-! ## Character queue: capacity and `Add` -/

/-- C21: `Add` on a roster that already holds 256 distinct characters passes the capacity `check`
and leaves 257 entries, the last one at index 256, which no `uint8` holds; 257 calls of `Add` on
the initial roster reach such a roster. -/
theorem C21_Add_admits_257th_character :
    (UPF2CharacterQueueComponent.Add ⟨(List.range 256).map some, 0, []⟩ 256).map
      (fun q => (q.Count, q.Queue.getD 256 none)) = some (257, some 256) ∧
    (RosterCall.run UPF2CharacterQueueComponent.initial
        ((List.range 257).map RosterCall.Add)).map
      (fun q => (q.Count, q.Queue.getD 256 none)) = some (257, some 256) ∧
    toUInt8 256 = 0 := by
  set_option maxRecDepth 1000000 in decide

theorem UPF2CharacterQueueComponent.Add_map_some (cs : List Nat) (a c : Nat)
    (ev : List CharacterEvent) (hcap : cs.length ≤ 256) :
    UPF2CharacterQueueComponent.Add ⟨cs.map some, a, ev⟩ c =
      some ⟨(if c ∈ cs then cs else cs ++ [c]).map some, a,
        ev ++ [.CharacterAdded (some c),
          .CharactersChanged (if c ∈ cs then cs else cs ++ [c])]⟩ := by
  have hcount : UPF2CharacterQueueComponent.Count ⟨cs.map some, a, ev⟩ ≤ 255 + 1 := by
    simpa [UPF2CharacterQueueComponent.Count, TArray.Num] using hcap
  unfold UPF2CharacterQueueComponent.Add
  rw [if_pos hcount]
  by_cases hmem : c ∈ cs
  · have hmem1 : some c ∈ cs.map some := by simpa using hmem
    simp [TArray.AddUnique, hmem, hmem1, UPF2CharacterQueueComponent.Native_OnCharactersChanged,
      UPF2CharacterQueueComponent.Native_OnCharacterAdded, List.filterMap_map]
  · have hmem1 : some c ∉ cs.map some := by simpa using hmem
    simp [TArray.AddUnique, hmem, hmem1, UPF2CharacterQueueComponent.Native_OnCharactersChanged,
      UPF2CharacterQueueComponent.Native_OnCharacterAdded, List.filterMap_map,
      List.filterMap_append]

/-- C22: on a roster of distinct characters with at most 256 entries (so in particular below
capacity), `Add c` succeeds and afterwards `c` occurs in the roster exactly once; if `c` was
absent it is appended at the end and `Count` grows by one, if `c` was present the roster and
`Count` are as before; the active index is unchanged; and the broadcasts are `CharacterAdded c`
followed by `CharactersChanged` with the roster afterwards. -/
theorem C22_Add_contract (cs : List Nat) (a c : Nat) (ev : List CharacterEvent)
    (hnd : cs.Nodup) (hcap : cs.length ≤ 256) :
    ∃ q1 after, UPF2CharacterQueueComponent.Add ⟨cs.map some, a, ev⟩ c = some q1 ∧
      q1.Queue = after.map some ∧
      after.Nodup ∧ c ∈ after ∧ after.count c = 1 ∧
      (c ∉ cs → after = cs ++ [c] ∧ q1.Count = cs.length + 1) ∧
      (c ∈ cs → after = cs ∧ q1.Count = cs.length) ∧
      q1.ActiveCharacterIndex = a ∧
      q1.Events = ev ++ [.CharacterAdded (some c), .CharactersChanged after] := by
  have hnd1 : (if c ∈ cs then cs else cs ++ [c]).Nodup := by
    by_cases hmem : c ∈ cs
    · simpa [hmem] using hnd
    · simp only [hmem, if_false]
      exact List.Nodup.append hnd (List.nodup_singleton c) (by simpa using hmem)
  have hmem1 : c ∈ (if c ∈ cs then cs else cs ++ [c]) := by
    by_cases hmem : c ∈ cs
    · simp [hmem]
    · simp [hmem]
  refine ⟨_, if c ∈ cs then cs else cs ++ [c],
    UPF2CharacterQueueComponent.Add_map_some cs a c ev hcap, rfl, hnd1, hmem1,
    List.count_eq_one_of_mem hnd1 hmem1, ?_, ?_, rfl, rfl⟩
  · intro hmem
    simp [hmem, UPF2CharacterQueueComponent.Count, TArray.Num]
  · intro hmem
    simp [hmem, UPF2CharacterQueueComponent.Count, TArray.Num]

/-- C22, at the roster `[1, 2]` with active index 1, adding the absent character 3. -/
theorem C22_Add_contract_witness :
    ∃ q1 after, UPF2CharacterQueueComponent.Add ⟨[some 1, some 2], 1, []⟩ 3 = some q1 ∧
      q1.Queue = after.map some ∧
      after.Nodup ∧ 3 ∈ after ∧ after.count 3 = 1 ∧
      (3 ∉ [1, 2] → after = [1, 2] ++ [3] ∧ q1.Count = 2 + 1) ∧
      (3 ∈ [1, 2] → after = [1, 2] ∧ q1.Count = 2) ∧
      q1.ActiveCharacterIndex = 1 ∧
      q1.Events = [] ++ [.CharacterAdded (some 3), .CharactersChanged after] :=
  C22_Add_contract [1, 2] 1 3 [] (by decide) (by decide)

/-! ## Character queue: the `ActiveCharacterChanged` broadcast of a cursor move -/

theorem UPF2CharacterQueueComponent.NextCharacter_any (cs : List Nat) (a : Nat)
    (ev : List CharacterEvent) (ha : a < cs.length) :
    UPF2CharacterQueueComponent.NextCharacter ⟨cs.map some, a, ev⟩ =
      some (cs[if a = (cs.length - 1) % 256 then 0 else (a + 1) % 256]?,
        ⟨cs.map some, if a = (cs.length - 1) % 256 then 0 else (a + 1) % 256,
          ev ++ (if cs[a]? ≠ cs[if a = (cs.length - 1) % 256 then 0 else (a + 1) % 256]? then
            [CharacterEvent.ActiveCharacterChanged
              cs[if a = (cs.length - 1) % 256 then 0 else (a + 1) % 256]?] else [])⟩) := by
  have hk : (if a = (cs.length - 1) % 256 then 0 else (a + 1) % 256) < cs.length := by
    split_ifs <;> omega
  unfold UPF2CharacterQueueComponent.NextCharacter
  have hlen0 : ¬ cs.length = 0 := by omega
  simp only [ne_eq, UPF2CharacterQueueComponent.GetMaxIndex,
    UPF2CharacterQueueComponent.Count, TArray.Num, List.length_map, hlen0,
    not_false_eq_true, if_true,
    UPF2CharacterQueueComponent.SetActiveCharacterIndex_map_some cs a _ ev ha hk,
    Option.some_bind, UPF2CharacterQueueComponent.GetActiveCharacter_map_some cs _ _ (Or.inl hk),
    Option.map_some']

theorem UPF2CharacterQueueComponent.PreviousCharacter_any (cs : List Nat) (a : Nat)
    (ev : List CharacterEvent) (ha : a < cs.length) :
    UPF2CharacterQueueComponent.PreviousCharacter ⟨cs.map some, a, ev⟩ =
      some (cs[if a = 0 then (cs.length - 1) % 256 else (a - 1) % 256]?,
        ⟨cs.map some, if a = 0 then (cs.length - 1) % 256 else (a - 1) % 256,
          ev ++ (if cs[a]? ≠ cs[if a = 0 then (cs.length - 1) % 256 else (a - 1) % 256]? then
            [CharacterEvent.ActiveCharacterChanged
              cs[if a = 0 then (cs.length - 1) % 256 else (a - 1) % 256]?] else [])⟩) := by
  have hk : (if a = 0 then (cs.length - 1) % 256 else (a - 1) % 256) < cs.length := by
    split_ifs <;> omega
  unfold UPF2CharacterQueueComponent.PreviousCharacter
  have hlen0 : ¬ cs.length = 0 := by omega
  simp only [ne_eq, UPF2CharacterQueueComponent.GetMaxIndex,
    UPF2CharacterQueueComponent.Count, TArray.Num, List.length_map, hlen0,
    not_false_eq_true, if_true,
    UPF2CharacterQueueComponent.SetActiveCharacterIndex_map_some cs a _ ev ha hk,
    Option.some_bind, UPF2CharacterQueueComponent.GetActiveCharacter_map_some cs _ _ (Or.inl hk),
    Option.map_some']

/-- C23: on a non-empty roster with active index `a < Count`, `NextCharacter` and
`PreviousCharacter` each succeed, return the character at the new active index, and broadcast
exactly one `ActiveCharacterChanged` with that character when it differs from the character at the
old index, and nothing otherwise; when `Count = 1` they broadcast nothing. -/
theorem C23_cursor_move_broadcast (cs : List Nat) (a : Nat) (ev : List CharacterEvent)
    (ha : a < cs.length) :
    (∃ q1 ch, UPF2CharacterQueueComponent.NextCharacter ⟨cs.map some, a, ev⟩ = some (ch, q1) ∧
      q1.Queue = cs.map some ∧ ch = cs[q1.ActiveCharacterIndex]? ∧
      (cs[a]? ≠ ch → q1.Events = ev ++ [.ActiveCharacterChanged ch]) ∧
      (cs[a]? = ch → q1.Events = ev) ∧
      (cs.length = 1 → q1.Events = ev)) ∧
    (∃ q1 ch, UPF2CharacterQueueComponent.PreviousCharacter ⟨cs.map some, a, ev⟩
        = some (ch, q1) ∧
      q1.Queue = cs.map some ∧ ch = cs[q1.ActiveCharacterIndex]? ∧
      (cs[a]? ≠ ch → q1.Events = ev ++ [.ActiveCharacterChanged ch]) ∧
      (cs[a]? = ch → q1.Events = ev) ∧
      (cs.length = 1 → q1.Events = ev)) := by
  constructor
  · refine ⟨_, _, UPF2CharacterQueueComponent.NextCharacter_any cs a ev ha, rfl, rfl, ?_, ?_, ?_⟩
    · intro h
      simp [h]
    · intro h
      simp [h]
    · intro h1
      have ha0 : a = 0 := by omega
      subst ha0
      simp [h1]
  · refine ⟨_, _, UPF2CharacterQueueComponent.PreviousCharacter_any cs a ev ha, rfl, rfl, ?_, ?_,
      ?_⟩
    · intro h
      simp [h]
    · intro h
      simp [h]
    · intro h1
      have ha0 : a = 0 := by omega
      subst ha0
      simp [h1]

/-- C23, at the roster `[1, 2, 3]` with active index 2, where `NextCharacter` wraps to the
character 1 and `PreviousCharacter` steps back to the character 2. -/
theorem C23_cursor_move_broadcast_witness :
    (∃ q1 ch, UPF2CharacterQueueComponent.NextCharacter ⟨[some 1, some 2, some 3], 2, []⟩
        = some (ch, q1) ∧
      q1.Queue = [some 1, some 2, some 3] ∧ ch = [1, 2, 3][q1.ActiveCharacterIndex]? ∧
      ([1, 2, 3][2]? ≠ ch → q1.Events = [] ++ [.ActiveCharacterChanged ch]) ∧
      ([1, 2, 3][2]? = ch → q1.Events = []) ∧
      ([1, 2, 3].length = 1 → q1.Events = [])) ∧
    (∃ q1 ch, UPF2CharacterQueueComponent.PreviousCharacter ⟨[some 1, some 2, some 3], 2, []⟩
        = some (ch, q1) ∧
      q1.Queue = [some 1, some 2, some 3] ∧ ch = [1, 2, 3][q1.ActiveCharacterIndex]? ∧
      ([1, 2, 3][2]? ≠ ch → q1.Events = [] ++ [.ActiveCharacterChanged ch]) ∧
      ([1, 2, 3][2]? = ch → q1.Events = []) ∧
      ([1, 2, 3].length = 1 → q1.Events = [])) :=
  C23_cursor_move_broadcast [1, 2, 3] 2 [] (by decide)

/-! ## Replication: reconciling with an unchanged snapshot -/

/-- C24: when the delta capture yields the (non-null) entries of old that are not in new as
removed and the (non-null) entries of new that are not in old as added, `OnRep_CharacterQueue`
with an old snapshot equal to the current roster contents succeeds and returns the component as
it was: no `CharacterAdded`, `CharacterRemoved` or `CharactersChanged` is broadcast and the roster
and the active index are unchanged. So reconciling once more after a reconciliation, with the
snapshot the first one left, changes nothing. -/
theorem C24_reconcile_same_snapshot_is_noop
    (capture : List ActorPtr → List ActorPtr → List Nat × List Nat)
    (q : UPF2CharacterQueueComponent)
    (hcapture : ∀ OldValues NewValues, capture OldValues NewValues =
      ((OldValues.filterMap id).filter (fun c => decide (some c ∉ NewValues)),
       (NewValues.filterMap id).filter (fun c => decide (some c ∉ OldValues)))) :
    q.OnRep_CharacterQueue capture q.Queue = some q ∧
    (∀ OldCharacters q1, q.OnRep_CharacterQueue capture OldCharacters = some q1 →
      q1.OnRep_CharacterQueue capture q1.Queue = some q1) := by
  have hsame : ∀ r : UPF2CharacterQueueComponent,
      r.OnRep_CharacterQueue capture r.Queue = some r := by
    intro r
    have hnil : (r.Queue.filterMap id).filter (fun c => decide (some c ∉ r.Queue)) = [] := by
      rw [List.filter_eq_nil_iff]
      intro c hc
      have hmem : some c ∈ r.Queue := by
        obtain ⟨x, hx, hxc⟩ := List.mem_filterMap.mp hc
        simp only [id] at hxc
        rw [← hxc]
        exact hx
      simp [hmem]
    unfold UPF2CharacterQueueComponent.OnRep_CharacterQueue
    simp only [hcapture, hnil, UPF2CharacterQueueComponent.OnRepRemovedLoop, Option.map_some',
      List.foldl_nil, TArray.Num, List.length_nil, ne_eq, not_true_eq_false, or_self, if_false]
  exact ⟨hsame q, fun _ q1 _ => hsame q1⟩

/-- C24, at the roster `[1, 2]` with active index 1 and the delta capture of
`PF2ArrayUtilities`. -/
theorem C24_reconcile_same_snapshot_is_noop_witness :
    UPF2CharacterQueueComponent.OnRep_CharacterQueue PF2ArrayUtilities.CaptureDeltasWithCast
      ⟨[some 1, some 2], 1, []⟩ [some 1, some 2] = some ⟨[some 1, some 2], 1, []⟩ :=
  (C24_reconcile_same_snapshot_is_noop PF2ArrayUtilities.CaptureDeltasWithCast
    ⟨[some 1, some 2], 1, []⟩ (fun _ _ => rfl)).1

/-! ## Command queue: `Remove`, the empty queue, `Clear` -/

theorem TArray.Remove_length {α : Type} [DecidableEq α] (xs : List α) (x : α) (hnd : xs.Nodup)
    (hmem : x ∈ xs) : (TArray.Remove xs x).length + 1 = xs.length := by
  unfold TArray.Remove
  induction xs with
  | nil => simp at hmem
  | cons d rest ih =>
    obtain ⟨hd, hrest⟩ := List.nodup_cons.mp hnd
    by_cases hdx : d = x
    · subst hdx
      have hself : rest.filter (fun y => decide (y ≠ d)) = rest := by
        rw [List.filter_eq_self]
        intro y hy
        simp only [ne_eq, decide_not, Bool.not_eq_true', decide_eq_false_iff_not]
        rintro rfl
        exact hd hy
      rw [List.filter_cons_of_neg (by simp), hself, List.length_cons]
    · have hmem1 : x ∈ rest := by
        rcases List.mem_cons.mp hmem with h | h
        · exact absurd h.symm hdx
        · exact h
      have hlen := ih hrest hmem1
      rw [List.filter_cons_of_pos (by simpa using hdx), List.length_cons, List.length_cons]
      omega

theorem TArray.Remove_of_not_mem {α : Type} [DecidableEq α] (xs : List α) (x : α)
    (hmem : x ∉ xs) : TArray.Remove xs x = xs := by
  unfold TArray.Remove
  rw [List.filter_eq_self]
  intro y hy
  simp only [ne_eq, decide_not, Bool.not_eq_true', decide_eq_false_iff_not]
  rintro rfl
  exact hmem hy

/-- C25: on a command queue without duplicates, `Remove c` returns true exactly when `c` is in
the queue; then the queue afterwards is the old one without `c`, the other entries in their
order, `Count` is one less, and the broadcasts are exactly `CommandRemoved c` then
`CommandsChanged`; when it returns false the component is unchanged and nothing is broadcast. -/
theorem C25_Remove_contract (q : UPF2CommandQueueComponent) (c : Nat) (hnd : q.Queue.Nodup) :
    ((q.Remove c).1 = true ↔ some c ∈ q.Queue) ∧
    (some c ∈ q.Queue →
      (q.Remove c).2.Queue = q.Queue.filter (fun y => decide (y ≠ some c)) ∧
      some c ∉ (q.Remove c).2.Queue ∧
      (q.Remove c).2.Count + 1 = q.Count ∧
      (q.Remove c).2.Events = q.Events ++
        [.CommandRemoved (some c), .CommandsChanged ((q.Remove c).2.Queue.filterMap id)]) ∧
    (some c ∉ q.Queue → (q.Remove c).2 = q) := by
  have hcount := TArray.RemoveCount_pos_iff q.Queue (some c)
  refine ⟨?_, ?_, ?_⟩
  · unfold UPF2CommandQueueComponent.Remove
    by_cases hmem : some c ∈ q.Queue
    · simp [hcount.mpr hmem, hmem]
    · have h0 : ¬ TArray.RemoveCount q.Queue (some c) > 0 := fun h => hmem (hcount.mp h)
      simp [h0, hmem]
  · intro hmem
    have hlen := TArray.Remove_length q.Queue (some c) hnd hmem
    have hres : q.Remove c = (true,
        ⟨TArray.Remove q.Queue (some c),
          q.Events ++ [.CommandRemoved (some c),
            .CommandsChanged ((TArray.Remove q.Queue (some c)).filterMap id)],
          q.Attempts⟩) := by
      unfold UPF2CommandQueueComponent.Remove
      simp [hcount.mpr hmem, UPF2CommandQueueComponent.Native_OnCommandsChanged,
        UPF2CommandQueueComponent.Native_OnCommandRemoved]
    rw [hres]
    refine ⟨rfl, ?_, ?_, rfl⟩
    · simp [TArray.Remove, List.mem_filter]
    · simpa [UPF2CommandQueueComponent.Count, TArray.Num] using hlen
  · intro hmem
    have h0 : ¬ TArray.RemoveCount q.Queue (some c) > 0 := fun h => hmem (hcount.mp h)
    unfold UPF2CommandQueueComponent.Remove
    simp [h0, TArray.Remove_of_not_mem q.Queue (some c) hmem]

/-- C25, at the queue `[1, 2, 3]`, removing the command 2. -/
theorem C25_Remove_contract_witness :
    (UPF2CommandQueueComponent.Remove ⟨[some 1, some 2, some 3], [], []⟩ 2).1 = true ∧
    (UPF2CommandQueueComponent.Remove ⟨[some 1, some 2, some 3], [], []⟩ 2).2.Queue
      = [some 1, some 3] ∧
    (UPF2CommandQueueComponent.Remove ⟨[some 1, some 2, some 3], [], []⟩ 2).2.Events
      = [.CommandRemoved (some 2), .CommandsChanged [1, 3]] := by
  have h := C25_Remove_contract ⟨[some 1, some 2, some 3], [], []⟩ 2 (by decide)
  have hmem : some 2 ∈ [some 1, some 2, some (3 : Nat)] := by decide
  refine ⟨h.1.mpr hmem, ?_, ?_⟩
  · rw [(h.2.1 hmem).1]
    decide
  · rw [(h.2.1 hmem).2.2.2, (h.2.1 hmem).1]
    decide

/-- C26: on an empty command queue `PeekNext` and `PopNext` return nothing, `DropNext` does
nothing and `PopAndExecuteNext` returns `None`; each leaves the component as it was: the queue
stays empty, no execution is attempted and nothing is broadcast. -/
theorem C26_empty_queue_operations (ev : List CommandEvent) (attempts : List Nat)
    (attempt : Nat → EPF2CommandExecuteImmediatelyResult) :
    UPF2CommandQueueComponent.PeekNext ⟨[], ev, attempts⟩ = (none, ⟨[], ev, attempts⟩) ∧
    UPF2CommandQueueComponent.PopNext ⟨[], ev, attempts⟩ = (none, ⟨[], ev, attempts⟩) ∧
    UPF2CommandQueueComponent.DropNext ⟨[], ev, attempts⟩ = ⟨[], ev, attempts⟩ ∧
    UPF2CommandQueueComponent.PopAndExecuteNext attempt ⟨[], ev, attempts⟩
      = (.None, ⟨[], ev, attempts⟩) := by
  refine ⟨rfl, rfl, rfl, rfl⟩

/-- C27: `Clear` on any command queue leaves the queue empty with `Count = 0` and broadcasts
exactly one `CommandsChanged`, carrying the empty list; no `CommandRemoved` is broadcast. -/
theorem C27_Clear_contract (q : UPF2CommandQueueComponent) :
    q.Clear.Queue = [] ∧ q.Clear.Count = 0 ∧
    q.Clear.Events = q.Events ++ [.CommandsChanged []] ∧
    q.Clear.Attempts = q.Attempts := by
  simp [UPF2CommandQueueComponent.Clear, UPF2CommandQueueComponent.Native_OnCommandsChanged,
    TArray.Empty, UPF2CommandQueueComponent.Count, TArray.Num]

/-! ## Attribute set: the guard of `AdjustAttributeForMaxChange` -/

/-- C28: when the new maximum is nearly equal to the old one, or no ability-system component is
bound, `AdjustAttributeForMaxChange` applies no modification and the paired current value is
unchanged; in every other case it applies one additive modification (`c * n / m - c` for an old
maximum `m > 0`, `n` otherwise, which may be 0), and the current value is the old one plus that
modification. -/
theorem C28_max_change_guard (AbilityComp : Bool) (c m n : ℚ) :
    ((FMath.IsNearlyEqual m n = true ∨ AbilityComp = false) →
      URPGAttributeSet.AdjustAttributeForMaxChangeMod AbilityComp c m n = none ∧
      URPGAttributeSet.AdjustAttributeForMaxChange AbilityComp c m n = c ∧
      ∀ s : URPGAttributeSet, s.HitPoints = c → s.MaxHitPoints = m →
        (s.SetMax AbilityComp n).HitPoints = c) ∧
    (¬ (FMath.IsNearlyEqual m n = true ∨ AbilityComp = false) →
      URPGAttributeSet.AdjustAttributeForMaxChangeMod AbilityComp c m n
        = some (if m > 0 then c * n / m - c else n) ∧
      URPGAttributeSet.AdjustAttributeForMaxChange AbilityComp c m n
        = c + (if m > 0 then c * n / m - c else n)) ∧
    (URPGAttributeSet.AdjustAttributeForMaxChangeMod AbilityComp c m n = none ↔
      (FMath.IsNearlyEqual m n = true ∨ AbilityComp = false)) := by
  unfold URPGAttributeSet.AdjustAttributeForMaxChangeMod
    URPGAttributeSet.AdjustAttributeForMaxChange
  cases hnear : FMath.IsNearlyEqual m n <;> cases AbilityComp
  · refine ⟨fun _ => ⟨by simp, by simp, ?_⟩, fun h => absurd (Or.inr rfl) h, by simp⟩
    intro s h1 h2
    simp [URPGAttributeSet.SetMax, URPGAttributeSet.PreAttributeChange,
      URPGAttributeSet.AdjustAttributeForMaxChange, h1]
  · refine ⟨fun h => ?_, fun _ => ⟨by simp, by simp⟩, by simp⟩
    rcases h with h | h
    · exact absurd h (by simp)
    · exact absurd h (by simp)
  · refine ⟨fun _ => ⟨by simp, by simp, ?_⟩, fun h => absurd (Or.inr rfl) h, by simp⟩
    intro s h1 h2
    simp [URPGAttributeSet.SetMax, URPGAttributeSet.PreAttributeChange,
      URPGAttributeSet.AdjustAttributeForMaxChange, h1]
  · refine ⟨fun _ => ⟨by simp, by simp, ?_⟩, fun h => absurd (Or.inl rfl) h, by simp⟩
    intro s h1 h2
    simp [URPGAttributeSet.SetMax, URPGAttributeSet.PreAttributeChange,
      URPGAttributeSet.AdjustAttributeForMaxChange, h1, h2, hnear]

/-! ## Command queue: the outcomes of `PopAndExecuteNext` -/

theorem UPF2CommandQueueComponent.PopAndExecuteNext_cons_some
    (attempt : Nat → EPF2CommandExecuteImmediatelyResult) (q : UPF2CommandQueueComponent)
    (c : Nat) (rest : List ActorPtr) (hq : q.Queue = some c :: rest) :
    UPF2CommandQueueComponent.PopAndExecuteNext attempt q =
      if attempt c = .Blocked then (attempt c, { q with Attempts := q.Attempts ++ [c] })
      else (attempt c,
        UPF2CommandQueueComponent.DropNext { q with Attempts := q.Attempts ++ [c] }) := by
  have hpeek : UPF2CommandQueueComponent.PeekNext q = (some c, q) := by
    simp [UPF2CommandQueueComponent.PeekNext, UPF2CommandQueueComponent.Count, TArray.Num, hq]
  simp [UPF2CommandQueueComponent.PopAndExecuteNext, hpeek]

theorem UPF2CommandQueueComponent.PopAndExecuteNext_of_no_command
    (attempt : Nat → EPF2CommandExecuteImmediatelyResult) (q : UPF2CommandQueueComponent)
    (hq : q.Queue = [] ∨ ∃ rest, q.Queue = none :: rest) :
    UPF2CommandQueueComponent.PopAndExecuteNext attempt q = (.None, q) := by
  have hpeek : UPF2CommandQueueComponent.PeekNext q = (none, q) := by
    rcases hq with hq | ⟨rest, hq⟩
    · simp [UPF2CommandQueueComponent.PeekNext, UPF2CommandQueueComponent.Count, TArray.Num, hq]
    · simp [UPF2CommandQueueComponent.PeekNext, UPF2CommandQueueComponent.Count, TArray.Num, hq]
  simp [UPF2CommandQueueComponent.PopAndExecuteNext, hpeek]

/-- C29, as the spec states it, fails on a non-empty queue whose entry at index 0 is null (as
replication can leave it): `PopAndExecuteNext` returns `None`, attempts nothing and leaves the
queue as it is, although the queue is not empty. -/
theorem C29_null_next_entry_returns_None :
    UPF2CommandQueueComponent.Count ⟨[none, some 1], [], []⟩ ≠ 0 ∧
    UPF2CommandQueueComponent.PopAndExecuteNext
        (fun _ => APF2CharacterCommand.AttemptExecuteImmediately true) ⟨[none, some 1], [], []⟩
      = (.None, ⟨[none, some 1], [], []⟩) := by
  decide

/-- C29, amended: on a command queue whose next entry (index 0) is a command `c`,
`PopAndExecuteNext` with `AttemptExecuteImmediately` of `APF2CharacterCommand` returns
`Activated` and shrinks the queue by one entry when `TryActivateAbility` answers true for `c`,
and returns `Blocked` and leaves the queue and the broadcasts as they were when it answers false;
so the queue shrinks exactly when the activation succeeds, and the result is never `None`. The
result `None` is returned exactly when the queue is empty or its entry at index 0 is null. -/
theorem C29_PopAndExecuteNext_outcomes (tryActivate : Nat → Bool)
    (q : UPF2CommandQueueComponent) :
    (∀ c rest, q.Queue = some c :: rest →
      (tryActivate c = true →
        (q.PopAndExecuteNext
          (fun d => APF2CharacterCommand.AttemptExecuteImmediately (tryActivate d))).1
            = .Activated ∧
        (q.PopAndExecuteNext
          (fun d => APF2CharacterCommand.AttemptExecuteImmediately (tryActivate d))).2.Queue
            = q.Queue.dropLast) ∧
      (tryActivate c = false →
        (q.PopAndExecuteNext
          (fun d => APF2CharacterCommand.AttemptExecuteImmediately (tryActivate d))).1
            = .Blocked ∧
        (q.PopAndExecuteNext
          (fun d => APF2CharacterCommand.AttemptExecuteImmediately (tryActivate d))).2.Queue
            = q.Queue ∧
        (q.PopAndExecuteNext
          (fun d => APF2CharacterCommand.AttemptExecuteImmediately (tryActivate d))).2.Events
            = q.Events) ∧
      ((q.PopAndExecuteNext
          (fun d => APF2CharacterCommand.AttemptExecuteImmediately (tryActivate d))).2.Count
            < q.Count ↔ tryActivate c = true) ∧
      (q.PopAndExecuteNext
          (fun d => APF2CharacterCommand.AttemptExecuteImmediately (tryActivate d))).1
            ≠ .None) ∧
    ((q.PopAndExecuteNext
        (fun d => APF2CharacterCommand.AttemptExecuteImmediately (tryActivate d))).1 = .None ↔
      (q.Queue = [] ∨ ∃ rest, q.Queue = none :: rest)) := by
  have hcons : ∀ c rest, q.Queue = some c :: rest →
      (tryActivate c = true →
        q.PopAndExecuteNext
          (fun d => APF2CharacterCommand.AttemptExecuteImmediately (tryActivate d))
        = (.Activated,
            UPF2CommandQueueComponent.DropNext { q with Attempts := q.Attempts ++ [c] })) ∧
      (tryActivate c = false →
        q.PopAndExecuteNext
          (fun d => APF2CharacterCommand.AttemptExecuteImmediately (tryActivate d))
        = (.Blocked, { q with Attempts := q.Attempts ++ [c] })) := by
    intro c rest hq
    rw [UPF2CommandQueueComponent.PopAndExecuteNext_cons_some _ q c rest hq]
    constructor
    · intro h
      simp [APF2CharacterCommand.AttemptExecuteImmediately, h]
    · intro h
      simp [APF2CharacterCommand.AttemptExecuteImmediately, h]
  constructor
  · intro c rest hq
    obtain ⟨hact, hblk⟩ := hcons c rest hq
    have hdrop : (UPF2CommandQueueComponent.DropNext
        { q with Attempts := q.Attempts ++ [c] }).Queue = q.Queue.dropLast :=
      UPF2CommandQueueComponent.DropNext_queue _
    refine ⟨?_, ?_, ?_, ?_⟩
    · intro h
      rw [hact h]
      exact ⟨rfl, hdrop⟩
    · intro h
      rw [hblk h]
      exact ⟨rfl, rfl, rfl⟩
    · cases h : tryActivate c
      · rw [hblk h]
        simp [UPF2CommandQueueComponent.Count]
      · rw [hact h]
        have hlt : (UPF2CommandQueueComponent.DropNext
            { q with Attempts := q.Attempts ++ [c] }).Queue.length < q.Queue.length := by
          rw [hdrop, List.length_dropLast, hq]
          simp
        simpa [UPF2CommandQueueComponent.Count, TArray.Num] using hlt
    · cases h : tryActivate c
      · rw [hblk h]
        simp
      · rw [hact h]
        simp
  · constructor
    · intro hnone
      cases hq : q.Queue with
      | nil => exact Or.inl rfl
      | cons x rest =>
        cases x with
        | none => exact Or.inr ⟨rest, rfl⟩
        | some c =>
          obtain ⟨hact, hblk⟩ := hcons c rest hq
          cases h : tryActivate c
          · rw [hblk h] at hnone
            simp at hnone
          · rw [hact h] at hnone
            simp at hnone
    · intro hq
      rw [UPF2CommandQueueComponent.PopAndExecuteNext_of_no_command _ q hq]

/-! ## Character queue: a full cycle of the cursor -/

theorem UPF2CharacterQueueComponent.NextCharacters_map_some (cs : List Nat)
    (hn : 0 < cs.length) (hcap : cs.length ≤ 256) :
    ∀ (k a : Nat) (ev : List CharacterEvent), a < cs.length →
      ∃ ev1, UPF2CharacterQueueComponent.NextCharacters k ⟨cs.map some, a, ev⟩ =
        some ((List.range k).map (fun j => cs[(a + 1 + j) % cs.length]?),
          ⟨cs.map some, (a + k) % cs.length, ev1⟩) := by
  intro k
  induction k with
  | zero =>
    intro a ev ha
    exact ⟨ev, by simp [UPF2CharacterQueueComponent.NextCharacters, Nat.mod_eq_of_lt ha]⟩
  | succ k ih =>
    intro a ev ha
    have hstep := UPF2CharacterQueueComponent.NextCharacter_map_some cs a ev hn hcap ha
    obtain ⟨ev1, hrest⟩ := ih ((a + 1) % cs.length)
      (ev ++ (if cs[a]? ≠ cs[(a + 1) % cs.length]? then
        [CharacterEvent.ActiveCharacterChanged cs[(a + 1) % cs.length]?] else []))
      (Nat.mod_lt _ hn)
    refine ⟨ev1, ?_⟩
    simp only [UPF2CharacterQueueComponent.NextCharacters, hstep, Option.some_bind, hrest,
      Option.map_some', Option.some.injEq, Prod.mk.injEq]
    constructor
    · rw [List.range_succ_eq_map, List.map_cons, List.map_map]
      congr 1
      apply List.map_congr_left
      intro j _
      simp only [Function.comp, Nat.succ_eq_add_one]
      have h1 : ((a + 1) % cs.length + 1 + j) % cs.length = (a + 1 + (j + 1)) % cs.length := by
        rw [Nat.add_assoc ((a + 1) % cs.length) 1 j, Nat.mod_add_mod, Nat.add_comm 1 j]
      rw [h1]
    · have h2 : ((a + 1) % cs.length + k) % cs.length = (a + (k + 1)) % cs.length := by
        rw [Nat.mod_add_mod]
        congr 1
        omega
      rw [h2]

theorem UPF2CharacterQueueComponent.PreviousCharacters_map_some (cs : List Nat)
    (hn : 0 < cs.length) (hcap : cs.length ≤ 256) :
    ∀ (k a : Nat) (ev : List CharacterEvent), a < cs.length → k ≤ cs.length →
      ∃ ev1, UPF2CharacterQueueComponent.PreviousCharacters k ⟨cs.map some, a, ev⟩ =
        some ((List.range k).map (fun j => cs[(a + (cs.length - (j + 1))) % cs.length]?),
          ⟨cs.map some, (a + (cs.length - k)) % cs.length, ev1⟩) := by
  intro k
  induction k with
  | zero =>
    intro a ev ha _
    exact ⟨ev, by simp [UPF2CharacterQueueComponent.PreviousCharacters, Nat.mod_eq_of_lt ha]⟩
  | succ k ih =>
    intro a ev ha hk
    have hstep := UPF2CharacterQueueComponent.PreviousCharacter_map_some cs a ev hn hcap ha
    obtain ⟨ev1, hrest⟩ := ih ((a + cs.length - 1) % cs.length)
      (ev ++ (if cs[a]? ≠ cs[(a + cs.length - 1) % cs.length]? then
        [CharacterEvent.ActiveCharacterChanged cs[(a + cs.length - 1) % cs.length]?] else []))
      (Nat.mod_lt _ hn) (by omega)
    refine ⟨ev1, ?_⟩
    simp only [UPF2CharacterQueueComponent.PreviousCharacters, hstep, Option.some_bind, hrest,
      Option.map_some', Option.some.injEq, Prod.mk.injEq]
    constructor
    · rw [List.range_succ_eq_map, List.map_cons, List.map_map]
      congr 1
      · have h0 : a + (cs.length - (0 + 1)) = a + cs.length - 1 := by omega
        rw [h0]
      · apply List.map_congr_left
        intro j hj
        have hjk : j < k := List.mem_range.mp hj
        simp only [Function.comp, Nat.succ_eq_add_one]
        have h1 : ((a + cs.length - 1) % cs.length + (cs.length - (j + 1))) % cs.length
            = (a + (cs.length - (j + 1 + 1))) % cs.length := by
          rw [Nat.mod_add_mod]
          have h3 : a + cs.length - 1 + (cs.length - (j + 1))
              = a + (cs.length - (j + 1 + 1)) + cs.length := by omega
          rw [h3, Nat.add_mod_right]
        rw [h1]
    · have h2 : ((a + cs.length - 1) % cs.length + (cs.length - k)) % cs.length
          = (a + (cs.length - (k + 1))) % cs.length := by
        rw [Nat.mod_add_mod]
        have h3 : a + cs.length - 1 + (cs.length - k)
            = a + (cs.length - (k + 1)) + cs.length := by omega
        rw [h3, Nat.add_mod_right]
      rw [h2]

theorem List.range_map_rotate (cs : List Nat) (a : Nat) :
    (List.range cs.length).map (fun j => cs[(a + 1 + j) % cs.length]?)
      = (cs.rotate (a + 1)).map some := by
  apply List.ext_getElem?
  intro j
  by_cases hj : j < cs.length
  · rw [List.getElem?_map, List.getElem?_range hj, List.getElem?_map,
      List.getElem?_rotate hj]
    have hlt : (j + (a + 1)) % cs.length < cs.length := Nat.mod_lt _ (by omega)
    have hidx : (a + 1 + j) % cs.length = (j + (a + 1)) % cs.length := by
      rw [Nat.add_comm]
    simp only [Option.map_some', hidx, List.getElem?_eq_getElem hlt]
  · have h1 : ((List.range cs.length).map (fun j => cs[(a + 1 + j) % cs.length]?)).length ≤ j := by
      simp only [List.length_map, List.length_range]
      omega
    have h2 : ((cs.rotate (a + 1)).map some).length ≤ j := by
      simp only [List.length_map, List.length_rotate]
      omega
    rw [List.getElem?_eq_none h1, List.getElem?_eq_none h2]

theorem List.range_map_rotate_reverse (cs : List Nat) (a : Nat) :
    (List.range cs.length).map (fun j => cs[(a + (cs.length - (j + 1))) % cs.length]?)
      = ((cs.rotate a).reverse).map some := by
  apply List.ext_getElem?
  intro j
  by_cases hj : j < cs.length
  · have hj1 : j < (cs.rotate a).length := by rw [List.length_rotate]; exact hj
    have hj2 : cs.length - 1 - j < cs.length := by omega
    rw [List.getElem?_map, List.getElem?_range hj, List.getElem?_map,
      List.getElem?_reverse hj1, List.length_rotate, List.getElem?_rotate hj2]
    have hlt : (cs.length - 1 - j + a) % cs.length < cs.length := Nat.mod_lt _ (by omega)
    have hidx : a + (cs.length - (j + 1)) = cs.length - 1 - j + a := by omega
    simp only [Option.map_some', hidx, List.getElem?_eq_getElem hlt]
  · have h1 : ((List.range cs.length).map
        (fun j => cs[(a + (cs.length - (j + 1))) % cs.length]?)).length ≤ j := by
      simp only [List.length_map, List.length_range]
      omega
    have h2 : (((cs.rotate a).reverse).map some).length ≤ j := by
      simp only [List.length_map, List.length_reverse, List.length_rotate]
      omega
    rw [List.getElem?_eq_none h1, List.getElem?_eq_none h2]

/-- C30, as the spec states it, fails on a roster of 257 distinct characters (which 257 calls of
`Add` build), where the `uint8` cursor cannot reach index 256: from active index 0, 257 successive
`NextCharacter` calls return the character at index 0 every time; and from active index 255,
`NextCharacter` followed by `PreviousCharacter` ends at index 0, not 255. -/
theorem C30_cycle_breaks_on_257_entries :
    (UPF2CharacterQueueComponent.NextCharacters 257 ⟨(List.range 257).map some, 0, []⟩).map
      (fun r => (r.1, r.2.ActiveCharacterIndex)) = some (List.replicate 257 (some 0), 0) ∧
    ((UPF2CharacterQueueComponent.NextCharacter ⟨(List.range 257).map some, 255, []⟩).bind
      (fun r => UPF2CharacterQueueComponent.PreviousCharacter r.2)).map
      (fun r => r.2.ActiveCharacterIndex) = some 0 := by
  set_option maxRecDepth 1000000 in decide

/-- C30, amended: on a roster of distinct characters with `0 < Count = n <= 256` and active index
`a < n`, `n` successive `NextCharacter` calls succeed, return every roster entry exactly once and
leave the active index at `a` and the roster as it was; likewise `n` successive
`PreviousCharacter` calls; and `PreviousCharacter` applied after `NextCharacter` restores the
active index `a`. -/
theorem C30_full_cycle (cs : List Nat) (a : Nat) (ev : List CharacterEvent)
    (hnd : cs.Nodup) (hn : 0 < cs.length) (hcap : cs.length ≤ 256) (ha : a < cs.length) :
    (∃ chars q1, UPF2CharacterQueueComponent.NextCharacters cs.length ⟨cs.map some, a, ev⟩
        = some (chars, q1) ∧
      chars.Perm (cs.map some) ∧ chars.Nodup ∧
      q1.ActiveCharacterIndex = a ∧ q1.Queue = cs.map some) ∧
    (∃ chars q1, UPF2CharacterQueueComponent.PreviousCharacters cs.length ⟨cs.map some, a, ev⟩
        = some (chars, q1) ∧
      chars.Perm (cs.map some) ∧ chars.Nodup ∧
      q1.ActiveCharacterIndex = a ∧ q1.Queue = cs.map some) ∧
    (∃ c1 q1 c2 q2, UPF2CharacterQueueComponent.NextCharacter ⟨cs.map some, a, ev⟩
        = some (c1, q1) ∧
      UPF2CharacterQueueComponent.PreviousCharacter q1 = some (c2, q2) ∧
      q2.ActiveCharacterIndex = a ∧ q2.Queue = cs.map some) := by
  have hnd1 : (cs.map some).Nodup := hnd.map (Option.some_injective Nat)
  refine ⟨?_, ?_, ?_⟩
  · obtain ⟨ev1, hrun⟩ :=
      UPF2CharacterQueueComponent.NextCharacters_map_some cs hn hcap cs.length a ev ha
    have hperm : ((List.range cs.length).map (fun j => cs[(a + 1 + j) % cs.length]?)).Perm
        (cs.map some) := by
      rw [List.range_map_rotate]
      exact (List.rotate_perm cs (a + 1)).map some
    refine ⟨_, _, hrun, hperm, hperm.nodup_iff.mpr hnd1, ?_, rfl⟩
    show (a + cs.length) % cs.length = a
    rw [Nat.add_mod_right, Nat.mod_eq_of_lt ha]
  · obtain ⟨ev1, hrun⟩ :=
      UPF2CharacterQueueComponent.PreviousCharacters_map_some cs hn hcap cs.length a ev ha
        (le_refl _)
    have hperm : ((List.range cs.length).map
        (fun j => cs[(a + (cs.length - (j + 1))) % cs.length]?)).Perm (cs.map some) := by
      rw [List.range_map_rotate_reverse]
      exact ((List.reverse_perm _).trans (List.rotate_perm cs a)).map some
    refine ⟨_, _, hrun, hperm, hperm.nodup_iff.mpr hnd1, ?_, rfl⟩
    show (a + (cs.length - cs.length)) % cs.length = a
    rw [Nat.sub_self, Nat.add_zero, Nat.mod_eq_of_lt ha]
  · have hnext := UPF2CharacterQueueComponent.NextCharacter_map_some cs a ev hn hcap ha
    have hprev := UPF2CharacterQueueComponent.PreviousCharacter_map_some cs
      ((a + 1) % cs.length)
      (ev ++ (if cs[a]? ≠ cs[(a + 1) % cs.length]? then
        [CharacterEvent.ActiveCharacterChanged cs[(a + 1) % cs.length]?] else []))
      hn hcap (Nat.mod_lt _ hn)
    refine ⟨_, _, _, _, hnext, hprev, ?_, rfl⟩
    show ((a + 1) % cs.length + cs.length - 1) % cs.length = a
    have h1 : (a + 1) % cs.length + cs.length - 1 = (a + 1) % cs.length + (cs.length - 1) := by
      omega
    rw [h1, Nat.mod_add_mod]
    have h2 : a + 1 + (cs.length - 1) = a + cs.length := by omega
    rw [h2, Nat.add_mod_right, Nat.mod_eq_of_lt ha]

/-- C30 amended, at the roster `[1, 2, 3]` with active index 1. -/
theorem C30_full_cycle_witness :
    (∃ chars q1, UPF2CharacterQueueComponent.NextCharacters 3 ⟨[some 1, some 2, some 3], 1, []⟩
        = some (chars, q1) ∧
      chars.Perm [some 1, some 2, some 3] ∧ chars.Nodup ∧
      q1.ActiveCharacterIndex = 1 ∧ q1.Queue = [some 1, some 2, some 3]) ∧
    (∃ chars q1, UPF2CharacterQueueComponent.PreviousCharacters 3
        ⟨[some 1, some 2, some 3], 1, []⟩ = some (chars, q1) ∧
      chars.Perm [some 1, some 2, some 3] ∧ chars.Nodup ∧
      q1.ActiveCharacterIndex = 1 ∧ q1.Queue = [some 1, some 2, some 3]) ∧
    (∃ c1 q1 c2 q2, UPF2CharacterQueueComponent.NextCharacter ⟨[some 1, some 2, some 3], 1, []⟩
        = some (c1, q1) ∧
      UPF2CharacterQueueComponent.PreviousCharacter q1 = some (c2, q2) ∧
      q2.ActiveCharacterIndex = 1 ∧ q2.Queue = [some 1, some 2, some 3]) :=
  C30_full_cycle [1, 2, 3] 1 [] (by decide) (by decide) (by decide) (by decide)

end OpenPF2
